import Mathlib

/-!
Verification development for the chidb storage engine
(`src/libchidb/btree.c`, `src/libchidb/dbm-cursor.c`).

The development is a shallow embedding of the C sources:

* The pager-backed file of B-Trees is modelled at the level the C code
  itself manipulates it: a `BTree` record holds a map from page numbers to
  in-memory `BTreeNode` records (the fields of the C `BTreeNode` struct:
  `type`, `free_offset`, `n_cells`, `cells_offset`, `right_page`, plus the
  decoded cell list that on the page lives behind the cell-offset array).
  `chidb_Pager_writePage` persists a whole in-memory page buffer, and the
  chidb pager re-reads pages from the file on every `readPage`, so a store
  of node records updated at `writeNode`/`initEmptyNode` time and read at
  `getNodeByPage` time is an exact image of the C data flow.
* The two places where the claims are about raw page bytes — the file
  header check in `chidb_Btree_open` and the on-page writes of
  `chidb_Btree_initEmptyNode` — are additionally modelled byte-for-byte on
  a page represented as a function from byte offsets to byte values.
* All 16-bit header-field arithmetic of the C (`uint16_t`) is modelled
  with explicit `% 65536`; keys (`chidb_key_t`, `uint32_t`) and page
  numbers (`npage_t`) are `Nat`s, which is faithful because the code only
  compares and copies them.
* Recursion on disk-backed trees (`chidb_Btree_find`,
  `chidb_Btree_insertNonFull`, the cursor descent) is modelled with
  explicit fuel; `Status.stuck` marks fuel exhaustion and the C paths that
  are undefined behaviour (null-list dereference); no theorem below relies
  on those paths.
-/

/-- Status codes returned by the chidb API (`CHIDB_OK`, `CHIDB_EDUPLICATE`,
... from `chidbInt.h`).  `stuck` is a modelling artifact: it is returned on
fuel exhaustion and on C paths that are undefined behaviour; it corresponds
to no C return value and no theorem depends on reaching it. -/
inductive Status where
  | ok
  | eduplicate
  | enotfound
  | ecellno
  | epageno
  | ecorruptheader
  | enomem
  | eioerr
  | ecantmove
  | stuck
deriving DecidableEq, Repr

/-- Node-type bytes, from the chidb file format (`PGTYPE_TABLE_INTERNAL`
etc., used throughout `btree.c`). -/
def PGTYPE_TABLE_INTERNAL : Nat := 0x05

def PGTYPE_TABLE_LEAF : Nat := 0x0D

def PGTYPE_INDEX_INTERNAL : Nat := 0x02

def PGTYPE_INDEX_LEAF : Nat := 0x0A

/-- A decoded cell, the `BTreeCell` tagged union of `btree.h`: the four
on-disk cell variants.  The `key` field of the C struct is the first `Nat`
argument of every constructor. -/
inductive BTreeCell where
  | tableInternal (child_page : Nat) (key : Nat)
  | tableLeaf (key : Nat) (data_size : Nat) (data : List Nat)
  | indexInternal (child_page : Nat) (keyIdx : Nat) (keyPk : Nat)
  | indexLeaf (keyIdx : Nat) (keyPk : Nat)
deriving DecidableEq, Repr

instance : Inhabited BTreeCell := ⟨.tableLeaf 0 0 []⟩

/-- The `key` member of the C `BTreeCell` struct (for index cells the C
stores KeyIdx in `key`). -/
def cellKey : BTreeCell → Nat
  | .tableInternal _ k => k
  | .tableLeaf k _ _ => k
  | .indexInternal _ k _ => k
  | .indexLeaf k _ => k

/-- Reading `cell.fields.tableInternal.child_page` from the C union.  For
the two internal variants this is the child page; for `tableLeaf` the same
union slot holds `data_size`, and for `indexLeaf` it holds `keyPk` (the
first member of the respective variant structs).  The code only performs
this read on internal cells; the other two lines record the union overlay
so the model stays total. -/
def cellChildPage : BTreeCell → Nat
  | .tableInternal c _ => c
  | .indexInternal c _ _ => c
  | .tableLeaf _ sz _ => sz
  | .indexLeaf _ pk => pk

/-- The `keyPk` of an index cell (0 for table cells, whose union bytes the
code never reads as `keyPk`). -/
def cellKeyPk : BTreeCell → Nat
  | .indexInternal _ _ pk => pk
  | .indexLeaf _ pk => pk
  | _ => 0

/-- On-disk length of a cell, as computed in `chidb_Btree_insertCell` and
`would_overflow`: `TABLEINTCELL_SIZE = 8`, `TABLELEAFCELL_SIZE_WITHOUTDATA
= 8` (two fixed 4-byte varints), `INDEXINTCELL_SIZE = 16`,
`INDEXLEAFCELL_SIZE = 12` (constants of `btree.h`, layout per the file
format in the spec). -/
def cellLength : BTreeCell → Nat
  | .tableInternal _ _ => 8
  | .tableLeaf _ sz _ => sz + 8
  | .indexInternal _ _ _ => 16
  | .indexLeaf _ _ => 12

/-- `uint16_t` subtraction. -/
def sub16 (a b : Nat) : Nat := (a + (65536 - b % 65536)) % 65536

/-- `uint16_t` addition. -/
def add16 (a b : Nat) : Nat := (a + b) % 65536

/-- What `chidb_Btree_insertCell` actually serializes onto the page: for a
table-leaf cell, `memcpy` copies exactly `data_size` bytes of the payload;
the other variants are copied whole. -/
def storeForm : BTreeCell → BTreeCell
  | .tableLeaf k sz d => .tableLeaf k sz (d.take sz)
  | c => c

/-- Insertion into the cell-offset array at position `ncell`
(`memmove` of the array suffix plus `put2byte` of the new offset, step 3 of
`chidb_Btree_insertCell`).  An out-of-range position is undefined behaviour
in C (negative `memmove` size); the model leaves the list unchanged there,
and no theorem below exercises that case. -/
def insertAt : List BTreeCell → Nat → BTreeCell → List BTreeCell
  | l, 0, c => c :: l
  | [], _ + 1, _ => []
  | x :: xs, n + 1, c => x :: insertAt xs n c

/-- The in-memory `BTreeNode` struct of `btree.h`: the parsed header fields
plus (via `page`/`celloffset_array`) the page's cells.  `npage` is
`btn->page->npage`. -/
structure BTreeNode where
  npage : Nat
  type : Nat
  free_offset : Nat
  n_cells : Nat
  cells_offset : Nat
  right_page : Nat
  cells : List BTreeCell
deriving DecidableEq, Repr

instance : Inhabited BTreeNode :=
  ⟨{ npage := 0, type := 0, free_offset := 0, n_cells := 0,
     cells_offset := 0, right_page := 0, cells := [] }⟩

/-- The `BTree` handle together with the pager state it owns: the page
store (the database file as the pager serves it), the page count
(`pager->n_pages`) and the configured page size. -/
structure BTree where
  pages : Nat → Option BTreeNode
  n_pages : Nat
  page_size : Nat

/-- The cells the C code can reach by looping `i < n_cells` and calling
`chidb_Btree_getCell`.  For every node built by this model
`n_cells = cells.length`, so this is just `cells`. -/
def cellsUpTo (nd : BTreeNode) : List BTreeCell := nd.cells.take nd.n_cells

/-- `chidb_Btree_getNodeByPage`: `chidb_Pager_readPage` rejects page
numbers outside `[1, n_pages]` with `CHIDB_EPAGENO` (modelled as `none`),
otherwise the page is parsed into a `BTreeNode`. -/
def chidb_Btree_getNodeByPage (bt : BTree) (npage : Nat) : Option BTreeNode :=
  if 1 ≤ npage ∧ npage ≤ bt.n_pages then bt.pages npage else none

/-- `chidb_Btree_writeNode`: serialize the in-memory node back to its page
and persist it through the pager. -/
def chidb_Btree_writeNode (bt : BTree) (btn : BTreeNode) : BTree :=
  { bt with pages := fun q => if q = btn.npage then some btn else bt.pages q }

/-- `chidb_Btree_initEmptyNode`: initialize page `npage` as an empty node
of the given type and write it.  `free_offset` is the start of the
cell-offset array (`INTPG_CELLSOFFSET_OFFSET = 12` /
`LEAFPG_CELLSOFFSET_OFFSET = 8`, plus the 100 header bytes on page 1),
`cells_offset` is the page size and the cell count is zero.  The C guard
for zeroing `right_page` compares the node TYPE against those two offset
constants (12 and 8) and no type byte equals either, so the right-page
bytes of the page are in fact left as they were; the node-level image of
that residue is the previous node's `right_page` field (see the byte-level
`chidb_Btree_initEmptyNode_bytes` below, which settles the right-page
claim). -/
def initNodeRecord (bt : BTree) (npage : Nat) (type : Nat) : BTreeNode :=
  { npage := npage
    type := type
    free_offset := (if npage = 1 then 100 else 0) +
      (if type = PGTYPE_TABLE_INTERNAL ∨ type = PGTYPE_INDEX_INTERNAL then 12 else 8)
    n_cells := 0
    cells_offset := bt.page_size
    right_page := match bt.pages npage with
      | some old => old.right_page
      | none => 0
    cells := [] }

def chidb_Btree_initEmptyNode (bt : BTree) (npage : Nat) (type : Nat) : BTree :=
  chidb_Btree_writeNode bt (initNodeRecord bt npage type)

/-- `chidb_Btree_newNode`: `chidb_Pager_allocatePage` (extend the file by
one page, returning its number) followed by `chidb_Btree_initEmptyNode`. -/
def chidb_Btree_newNode (bt : BTree) (type : Nat) : BTree × Nat :=
  let npage := bt.n_pages + 1
  (chidb_Btree_initEmptyNode { bt with n_pages := npage } npage type, npage)

/-- `chidb_Btree_getCell`.  The C guard is `btn->n_cells < ncell` (with
`ncell < 0` impossible for the unsigned `ncell_t`), so `ncell = n_cells` is
accepted and decodes the bytes just past the offset array — junk, modelled
by `default` (`List.getD` out of range). -/
def chidb_Btree_getCell (btn : BTreeNode) (ncell : Nat) : Except Status BTreeCell :=
  if btn.n_cells < ncell then .error .ecellno
  else .ok (btn.cells.getD ncell default)

/-- `chidb_Btree_insertCell`: unconditionally serialize the cell at
`cells_offset - length`, splice its offset into the offset array at
position `ncell`, increment the cell count and advance `free_offset` by
the 2 bytes of offset-array growth.  There is no validation; the status is
always `CHIDB_OK`. -/
def chidb_Btree_insertCell (btn : BTreeNode) (ncell : Nat) (cell : BTreeCell) :
    Status × BTreeNode :=
  let length := cellLength cell
  (.ok,
   { btn with
     n_cells := add16 btn.n_cells 1
     cells_offset := sub16 btn.cells_offset length
     free_offset := add16 btn.free_offset 2
     cells := insertAt btn.cells ncell (storeForm cell) })

/-- A `for` loop of consecutive `chidb_Btree_getCell`/`chidb_Btree_insertCell`
pairs: insert the cells `cs` at positions `start, start+1, ...` (the exact
shape of the three copy loops in `chidb_Btree_split` and the root-copy loop
in `chidb_Btree_insert`, whose loop variable is the insertion position). -/
def insertSeq (dst : BTreeNode) (start : Nat) : List BTreeCell → BTreeNode
  | [] => dst
  | c :: cs => insertSeq (chidb_Btree_insertCell dst start c).2 (start + 1) cs

/-- `would_overflow` (btree.c): a cell fits iff its on-disk size is at most
`cells_offset - free_offset`, all in `uint16_t` arithmetic. -/
def would_overflow (node : BTreeNode) (cell : BTreeCell) : Bool :=
  let available := sub16 node.cells_offset node.free_offset
  let size_cell := cellLength cell % 65536
  size_cell > available

/-- Result of `chidb_Btree_find`: the status plus, on success, the
`*size`/`*data` out-parameters. -/
abbrev FindRes := (Status × Option (Nat × List Nat)) × BTree

/-- The cell scan of `chidb_Btree_find` over one node (the `for` loop):
on key equality at a table leaf return a copy of the payload; on
`key ≤ cell.key` either fail (leaf) or recurse into the cell's child
pointer; after the loop either fail (leaf) or recurse into `right_page`.
`recur` is the recursive call on a child page. -/
def chidb_Btree_find_scan (bt : BTree) (node : BTreeNode) (key : Nat)
    (recur : Nat → FindRes) : List BTreeCell → FindRes
  | [] =>
    if node.type = PGTYPE_TABLE_LEAF then ((.enotfound, none), bt)
    else recur node.right_page
  | c :: rest =>
    if cellKey c = key ∧ node.type = PGTYPE_TABLE_LEAF then
      ((.ok, some (match c with
          | .tableLeaf _ sz d => (sz, d.take sz)
          | c' => (cellChildPage c', []))), bt)
    else if key ≤ cellKey c then
      if node.type = PGTYPE_TABLE_LEAF then ((.enotfound, none), bt)
      else recur (cellChildPage c)
    else chidb_Btree_find_scan bt node key recur rest

/-- `chidb_Btree_find`, with fuel for the recursion over child pages.  The
function performs no page write, which the model makes explicit by
threading the (unchanged) `BTree` through every return. -/
def chidb_Btree_find (bt : BTree) : Nat → Nat → Nat → FindRes
  | 0, _, _ => ((.stuck, none), bt)
  | fuel + 1, nroot, key =>
    match chidb_Btree_getNodeByPage bt nroot with
    | none => ((.epageno, none), bt)
    | some node =>
      chidb_Btree_find_scan bt node key
        (fun p => chidb_Btree_find bt fuel p key) (cellsUpTo node)

/-- Result of the leaf-node scan in `chidb_Btree_insertNonFull`: the
insertion index `i` (first position whose key exceeds the new key), or
`CHIDB_EDUPLICATE` on key equality. -/
def nf_leaf_scan (key : Nat) : List BTreeCell → Nat → Except Status Nat
  | [], i => .ok i
  | c :: rest, i =>
    if key < cellKey c then .ok i
    else if cellKey c = key then .error .eduplicate
    else nf_leaf_scan key rest (i + 1)

/-- Result of the internal-node scan in `chidb_Btree_insertNonFull`. -/
inductive NfScan where
  | found (i : Nat) (cell : BTreeCell)
  | pastEnd (i : Nat)
  | dup
deriving DecidableEq, Repr

/-- The internal-node scan of `chidb_Btree_insertNonFull`: first cell whose
key strictly exceeds the new key (`found`, with the cell), key equality
(`dup`), or no such cell (`pastEnd`, with `i = n_cells`). -/
def nf_internal_scan (key : Nat) : List BTreeCell → Nat → NfScan
  | [], i => .pastEnd i
  | c :: rest, i =>
    if cellKey c > key then .found i c
    else if cellKey c = key then .dup
    else nf_internal_scan key rest (i + 1)

/-- `chidb_Btree_split`, faithful to the C: load parent and child, take
`median = n_cells / 2`, allocate the new left sibling and copy
`child[0..median)` into it (plus the median itself for a table leaf), point
its `right_page` at the median's child for internal children, build the
upper half in a scratch page, re-initialize the child in place and refill
it, convert the median cell to the parent's family with the new sibling as
its child pointer, insert it into the parent at `parent_ncell`, "erase" the
scratch page by decrementing the pager's page count, and write parent,
child and sibling.  Returns the new sibling's page (`*npage_child2`). -/
def chidb_Btree_split (bt : BTree) (npage_parent npage_child parent_ncell : Nat) :
    Status × BTree × Nat :=
  match chidb_Btree_getNodeByPage bt npage_parent with
  | none => (.epageno, bt, 0)
  | some parent =>
  match chidb_Btree_getNodeByPage bt npage_child with
  | none => (.epageno, bt, 0)
  | some child =>
  let median := child.n_cells / 2
  let alloc1 := chidb_Btree_newNode bt child.type
  let bt1 := alloc1.1
  let npage_child2 := alloc1.2
  match chidb_Btree_getNodeByPage bt1 npage_child2 with
  | none => (.epageno, bt1, npage_child2)
  | some new_node0 =>
  let new_node1 := insertSeq new_node0 0 ((cellsUpTo child).take median)
  let median_cell := match chidb_Btree_getCell child median with
    | .ok c => c
    | .error _ => default
  let tlres := if child.type = PGTYPE_TABLE_LEAF then
      ((chidb_Btree_insertCell new_node1 median median_cell).2, median + 1)
    else (new_node1, median)
  let new_node2 := tlres.1
  let top_half := tlres.2
  let new_node3 :=
    if child.type = PGTYPE_TABLE_INTERNAL then
      { new_node2 with right_page := cellChildPage median_cell }
    else if child.type = PGTYPE_INDEX_INTERNAL then
      { new_node2 with right_page := cellChildPage median_cell }
    else new_node2
  let alloc2 := chidb_Btree_newNode bt1 child.type
  let bt2 := alloc2.1
  let top_page := alloc2.2
  match chidb_Btree_getNodeByPage bt2 top_page with
  | none => (.epageno, bt2, npage_child2)
  | some top0 =>
  let top1 := insertSeq top0 0 ((cellsUpTo child).drop top_half)
  let child_right := child.right_page
  let bt3 := chidb_Btree_initEmptyNode bt2 npage_child top1.type
  match chidb_Btree_getNodeByPage bt3 npage_child with
  | none => (.epageno, bt3, npage_child2)
  | some child1 =>
  let child2 := { child1 with right_page := child_right }
  let child3 := insertSeq child2 0 (cellsUpTo top1)
  let promoted : BTreeCell :=
    if parent.type = PGTYPE_TABLE_INTERNAL then
      .tableInternal npage_child2 (cellKey median_cell)
    else if parent.type = PGTYPE_INDEX_INTERNAL then
      .indexInternal npage_child2 (cellKey median_cell) (cellKeyPk median_cell)
    else median_cell
  let parent1 := (chidb_Btree_insertCell parent parent_ncell promoted).2
  let bt4 := { bt3 with n_pages := bt3.n_pages - 1 }
  let bt5 := chidb_Btree_writeNode bt4 parent1
  let bt6 := chidb_Btree_writeNode bt5 child3
  let bt7 := chidb_Btree_writeNode bt6 new_node3
  (.ok, bt7, npage_child2)

/-- `chidb_Btree_insertNonFull`: on a leaf, scan for the position (or a
duplicate), insert and write the node; on an internal node, scan for the
target child (cell child or `right_page`), split it first if the new cell
would overflow it and retry from the same node, else recurse into it. -/
def chidb_Btree_insertNonFull (bt : BTree) : Nat → Nat → BTreeCell → Status × BTree
  | 0, _, _ => (.stuck, bt)
  | fuel + 1, npage, btc =>
    match chidb_Btree_getNodeByPage bt npage with
    | none => (.epageno, bt)
    | some node =>
      if node.type = PGTYPE_TABLE_LEAF ∨ node.type = PGTYPE_INDEX_LEAF then
        match nf_leaf_scan (cellKey btc) (cellsUpTo node) 0 with
        | .error e => (e, bt)
        | .ok i =>
          let node1 := (chidb_Btree_insertCell node i btc).2
          (.ok, chidb_Btree_writeNode bt node1)
      else
        match nf_internal_scan (cellKey btc) (cellsUpTo node) 0 with
        | .dup => (.eduplicate, bt)
        | .pastEnd i =>
          let right_page := node.right_page
          match chidb_Btree_getNodeByPage bt right_page with
          | none => (.epageno, bt)
          | some right_page_node =>
            if would_overflow right_page_node btc then
              match chidb_Btree_split bt npage right_page i with
              | (.ok, bt', _) => chidb_Btree_insertNonFull bt' fuel npage btc
              | (e, bt', _) => (e, bt')
            else chidb_Btree_insertNonFull bt fuel right_page btc
        | .found i cell =>
          let child_num := cellChildPage cell
          match chidb_Btree_getNodeByPage bt child_num with
          | none => (.epageno, bt)
          | some child_node =>
            if would_overflow child_node btc then
              match chidb_Btree_split bt npage child_num i with
              | (.ok, bt', _) => chidb_Btree_insertNonFull bt' fuel npage btc
              | (e, bt', _) => (e, bt')
            else chidb_Btree_insertNonFull bt fuel child_num btc

/-- `chidb_Btree_insert`: if the root cannot hold the cell, copy the root
into a freshly allocated sibling (carrying over the root's `right_page` —
in C this reads the just-freed root struct), re-initialize the root's page
in place as an internal node of the same family, point its `right_page` at
the sibling, write both, and split the sibling against the root at parent
position 0; then run `chidb_Btree_insertNonFull` from the root. -/
def chidb_Btree_insert (bt : BTree) (fuel : Nat) (nroot : Nat) (btc : BTreeCell) :
    Status × BTree :=
  match chidb_Btree_getNodeByPage bt nroot with
  | none => (.epageno, bt)
  | some root =>
    if would_overflow root btc then
      let alloc := chidb_Btree_newNode bt root.type
      let bt1 := alloc.1
      let new_right_num := alloc.2
      match chidb_Btree_getNodeByPage bt1 new_right_num with
      | none => (.epageno, bt1)
      | some new_right0 =>
        let new_right1 := insertSeq new_right0 0 (cellsUpTo root)
        let new_right2 := { new_right1 with right_page := root.right_page }
        let bt2 :=
          if new_right2.type = PGTYPE_TABLE_LEAF ∨ new_right2.type = PGTYPE_TABLE_INTERNAL then
            chidb_Btree_initEmptyNode bt1 nroot PGTYPE_TABLE_INTERNAL
          else
            chidb_Btree_initEmptyNode bt1 nroot PGTYPE_INDEX_INTERNAL
        match chidb_Btree_getNodeByPage bt2 nroot with
        | none => (.epageno, bt2)
        | some root1 =>
          let root2 := { root1 with right_page := new_right_num }
          let bt3 := chidb_Btree_writeNode bt2 root2
          let bt4 := chidb_Btree_writeNode bt3 new_right2
          match chidb_Btree_split bt4 nroot new_right_num 0 with
          | (.ok, bt5, _) => chidb_Btree_insertNonFull bt5 fuel nroot btc
          | (e, bt5, _) => (e, bt5)
    else chidb_Btree_insertNonFull bt fuel nroot btc

/-- `chidb_Btree_insertInTable`: wrap key and payload into a table-leaf
cell and insert it. -/
def chidb_Btree_insertInTable (bt : BTree) (fuel : Nat) (nroot : Nat) (key : Nat)
    (data : List Nat) (size : Nat) : Status × BTree :=
  chidb_Btree_insert bt fuel nroot (.tableLeaf key size data)

/-- A trail entry (`chidb_dbm_trail_node_t`): a loaded node plus the
current cell index within it. -/
structure TrailNode where
  node : BTreeNode
  cell_num : Nat
deriving DecidableEq, Repr

/-- A cursor (`chidb_dbm_cursor_t`): the root page (for rewinding), the
trail and the most recently fetched cell.  The C trail is a `simclist`
used as a stack at its tail (`list_append` / `list_get_at(size-1)` /
`list_delete_at(size-1)`); the model keeps the trail with the DEEPEST
node first, so the C tail is the list head here. -/
structure Cursor where
  root_page : Nat
  trail : List TrailNode
  cell : BTreeCell
deriving Repr

/-- `chidb_dbm_trail_node_new`: load the page and pair it with cell
index 0. -/
def chidb_dbm_trail_node_new (bt : BTree) (page : Nat) : Option TrailNode :=
  (chidb_Btree_getNodeByPage bt page).map (fun nd => ⟨nd, 0⟩)

/-- `chidb_dbm_cursor_table_down`: descend from the trail's deepest node to
a table leaf, following `cells[cell_num].child` (or `right_page` when
`cell_num = n_cells`), pushing a trail entry per level (cell index 0 going
forward, `n_cells` going backward); on reaching a leaf, store
`cells[cell_num]` in `cursor.cell`.  The result of that final
`chidb_Btree_getCell` is NOT checked in C: on an empty leaf the
off-by-one guard of `getCell` accepts index 0 and junk is stored.  Fuel
bounds the descent; `chidb_dbm_trail_node_new` failures (unchecked in C,
where the garbage pointer would be dereferenced) return `stuck`. -/
def chidb_dbm_cursor_table_down (bt : BTree) : Nat → Cursor → Bool → Status × Cursor
  | 0, c, _ => (.stuck, c)
  | fuel + 1, c, forward =>
    match c.trail with
    | [] => (.stuck, c)
    | tn :: _ =>
      if tn.node.type = PGTYPE_TABLE_LEAF then
        match chidb_Btree_getCell tn.node tn.cell_num with
        | .ok cell => (.ok, { c with cell := cell })
        | .error _ => (.ok, c)
      else
        let next_page :=
          if tn.cell_num < tn.node.n_cells then
            cellChildPage (tn.node.cells.getD tn.cell_num default)
          else tn.node.right_page
        match chidb_dbm_trail_node_new bt next_page with
        | none => (.stuck, c)
        | some ntn =>
          let ntn' := if forward then ntn else { ntn with cell_num := ntn.node.n_cells }
          chidb_dbm_cursor_table_down bt fuel { c with trail := ntn' :: c.trail } forward

/-- `chidb_dbm_cursor_rewind`: destroy the trail, push a fresh root entry,
descend to the leftmost leaf.  The status of the descent is ignored and the
function returns `CHIDB_OK` unconditionally. -/
def chidb_dbm_cursor_rewind (bt : BTree) (fuel : Nat) (c : Cursor) : Status × Cursor :=
  match chidb_dbm_trail_node_new bt c.root_page with
  | none => (.stuck, c)
  | some tn =>
    let c1 := { c with trail := [tn] }
    (.ok, (chidb_dbm_cursor_table_down bt fuel c1 true).2)

/-- `chidb_dbm_cursor_table_up`: with the exhausted deepest node already
popped, advance the new deepest node's cell index; forward, descend again
while `cell_num ≤ n_cells`, else pop and recurse; backward the `uint16_t`
comparison `cell_num >= 0` is always true.  An empty trail (`last == -1`
via unsigned wrap-around) returns `CHIDB_CANTMOVE`. -/
def chidb_dbm_cursor_table_up (bt : BTree) : Nat → Cursor → Bool → Status × Cursor
  | 0, c, _ => (.stuck, c)
  | fuel + 1, c, forward =>
    match c.trail with
    | [] => (.ecantmove, c)
    | tn :: rest =>
      let cn' := if forward then tn.cell_num + 1 else sub16 tn.cell_num 1
      let down := if forward then cn' ≤ tn.node.n_cells else True
      if down then
        chidb_dbm_cursor_table_down bt fuel { c with trail := { tn with cell_num := cn' } :: rest } forward
      else
        chidb_dbm_cursor_table_up bt fuel { c with trail := rest } forward

/-- `chidb_dbm_cursor_table_move`: on the deepest trail node (assumed to be
a leaf), step the cell index and fetch the cell, or, at the directional
boundary (`n_cells - 1` forward in `uint16_t` arithmetic, 0 backward), pop
the entry and go up.  An empty trail is a null dereference in C
(`stuck`). -/
def chidb_dbm_cursor_table_move (bt : BTree) (fuel : Nat) (c : Cursor) (forward : Bool) :
    Status × Cursor :=
  match c.trail with
  | [] => (.stuck, c)
  | tn :: rest =>
    let up := if forward then tn.cell_num = sub16 tn.node.n_cells 1 else tn.cell_num = 0
    if up then
      chidb_dbm_cursor_table_up bt fuel { c with trail := rest } forward
    else
      let cn' := if forward then tn.cell_num + 1 else sub16 tn.cell_num 1
      let tn' := { tn with cell_num := cn' }
      match chidb_Btree_getCell tn.node cn' with
      | .error e => (e, { c with trail := tn' :: rest })
      | .ok cell => (.ok, { c with trail := tn' :: rest, cell := cell })

/-- Repeatedly apply `chidb_dbm_cursor_table_move` forward, up to `k`
times, collecting `cursor.cell` after each successful move and stopping at
the first non-OK status (which is returned). -/
def collectMoves (bt : BTree) (fuel : Nat) : Nat → Cursor → List BTreeCell × Status
  | 0, _ => ([], .ok)
  | k + 1, c =>
    match chidb_dbm_cursor_table_move bt fuel c true with
    | (.ok, c') =>
      let r := collectMoves bt fuel k c'
      (c'.cell :: r.1, r.2)
    | (s, _) => ([], s)

/-- A raw page or header buffer: byte value at each offset (`uint8_t`,
normalized mod 256 on write and read). -/
abbrev Bytes := Nat → Nat

/-- `put1` writes one byte. -/
def put1 (p : Bytes) (off v : Nat) : Bytes :=
  fun i => if i = off then v % 256 else p i

/-- `put2byte` (util.c): big-endian `uint16_t`. -/
def put2byte (p : Bytes) (off v : Nat) : Bytes :=
  put1 (put1 p off (v / 256)) (off + 1) v

/-- `put4byte` (util.c): big-endian `uint32_t`. -/
def put4byte (p : Bytes) (off v : Nat) : Bytes :=
  put1 (put1 (put1 (put1 p off (v / 16777216)) (off + 1) (v / 65536)) (off + 2) (v / 256)) (off + 3) v

/-- `get2byte` (util.c). -/
def get2byte (p : Bytes) (off : Nat) : Nat :=
  (p off % 256) * 256 + p (off + 1) % 256

/-- `get4byte` (util.c). -/
def get4byte (p : Bytes) (off : Nat) : Nat :=
  ((p off % 256) * 16777216) + ((p (off + 1) % 256) * 65536) +
    ((p (off + 2) % 256) * 256) + p (off + 3) % 256

/-- Write a list of bytes at consecutive offsets (`memcpy` / `sprintf` of a
constant string). -/
def putList (p : Bytes) (off : Nat) : List Nat → Bytes
  | [] => p
  | b :: bs => putList (put1 p off b) (off + 1) bs

/-- The bytes of `"SQLite format 3"` (15 characters; byte 15 of the header
is the terminating 0 written by `sprintf`). -/
def magicBytes : List Nat :=
  [0x53, 0x51, 0x4C, 0x69, 0x74, 0x65, 0x20, 0x66, 0x6F, 0x72, 0x6D, 0x61, 0x74, 0x20, 0x33]

/-- Modelled from the spec: the file-header offsets used by `btree.c`
come from `chidbInt.h`, which is not part of the sources; the chidb file
format (spec section 3) fixes them: page size at 16 (`HEADER_PAGESIZE`),
the six constant bytes at 18 (`HEADER_JUNK`), file-change counter at 24
(`HEADER_FILECHANGE`), two zero words at 32 (`HEADER_EMPTY`), schema
version at 40 (`HEADER_SCHEMA`), a one-valued word at 44 (`HEADER_ONE`),
page-cache size at 48 (`HEADER_PAGECACHESIZE`), a zero and a one word at
52/56 (`HEADER_EMPTYONE`), user cookie at 60 (`HEADER_COOKIE`), a zero
word at 64 (`HEADER_ZERO`), header end at byte 99 (`HEADER_END`). -/
def HEADER_PAGESIZE : Nat := 0x10

def HEADER_JUNK : Nat := 0x12

def HEADER_FILECHANGE : Nat := 0x18

def HEADER_EMPTY : Nat := 0x20

def HEADER_SCHEMA : Nat := 0x28

def HEADER_ONE : Nat := 0x2C

def HEADER_PAGECACHESIZE : Nat := 0x30

def HEADER_EMPTYONE : Nat := 0x34

def HEADER_COOKIE : Nat := 0x3C

def HEADER_ZERO : Nat := 0x40

def HEADER_END : Nat := 99

/-- Modelled from the spec: node-header offsets within a page
(`btree.h`, fixed by the file format in spec section 3): type byte at 0,
first-free-byte `u16` at 1, cell count at 3, cell-area start at 5, a zero
byte at 7, right-page `u32` at 8; the cell-offset array starts at 12 on
internal pages and 8 on leaf pages. -/
def PGHEADER_PGTYPE_OFFSET : Nat := 0

def PGHEADER_FREE_OFFSET : Nat := 1

def PGHEADER_NCELLS_OFFSET : Nat := 3

def PGHEADER_CELL_OFFSET : Nat := 5

def PGHEADER_ZERO_OFFSET : Nat := 7

def PGHEADER_RIGHTPG_OFFSET : Nat := 8

def INTPG_CELLSOFFSET_OFFSET : Nat := 12

def LEAFPG_CELLSOFFSET_OFFSET : Nat := 8

/-- The page writes of `chidb_Btree_initEmptyNode`, byte for byte.  On page
1 the 100-byte file header is written first and the node header starts at
byte 100.  Note the final guard: the C compares the node TYPE against
`INTPG_CELLSOFFSET_OFFSET` (12) and `LEAFPG_CELLSOFFSET_OFFSET` (8), which
no type byte (0x05, 0x0D, 0x02, 0x0A) equals, so the `put4byte` of 0 into
the right-page slot is dead code and those four bytes keep their previous
contents. -/
def chidb_Btree_initEmptyNode_bytes (page : Bytes) (npage page_size type : Nat) : Bytes :=
  let d :=
    if npage = 1 then
      let p0 := putList page 0 (magicBytes ++ [0])
      let p1 := put2byte p0 HEADER_PAGESIZE page_size
      let p2 := putList p1 HEADER_JUNK [0x01, 0x01, 0x00, 0x40, 0x20, 0x20]
      let p3 := put4byte p2 HEADER_FILECHANGE 0
      let p4 := put4byte (put4byte p3 HEADER_EMPTY 0) (HEADER_EMPTY + 4) 0
      let p5 := put4byte p4 HEADER_SCHEMA 0
      let p6 := put4byte p5 HEADER_ONE 1
      let p7 := put4byte p6 HEADER_PAGECACHESIZE 20000
      let p8 := put4byte (put4byte p7 HEADER_EMPTYONE 0) (HEADER_EMPTYONE + 4) 1
      let p9 := put4byte p8 HEADER_COOKIE 0
      let p10 := put4byte p9 HEADER_ZERO 0
      if type = PGTYPE_TABLE_INTERNAL ∨ type = PGTYPE_INDEX_INTERNAL then
        put2byte p10 (HEADER_END + 1 + PGHEADER_FREE_OFFSET)
          (HEADER_END + 1 + INTPG_CELLSOFFSET_OFFSET)
      else
        put2byte p10 (HEADER_END + 1 + PGHEADER_FREE_OFFSET)
          (HEADER_END + 1 + LEAFPG_CELLSOFFSET_OFFSET)
    else
      if type = PGTYPE_TABLE_INTERNAL ∨ type = PGTYPE_INDEX_INTERNAL then
        put2byte page PGHEADER_FREE_OFFSET INTPG_CELLSOFFSET_OFFSET
      else
        put2byte page PGHEADER_FREE_OFFSET LEAFPG_CELLSOFFSET_OFFSET
  let base := if npage = 1 then HEADER_END + 1 else 0
  let d1 := put1 d (base + PGHEADER_PGTYPE_OFFSET) type
  let d2 := put2byte d1 (base + PGHEADER_NCELLS_OFFSET) 0
  let d3 := put2byte d2 (base + PGHEADER_CELL_OFFSET) page_size
  let d4 := put1 d3 (base + PGHEADER_ZERO_OFFSET) 0
  if type = INTPG_CELLSOFFSET_OFFSET ∨ type = LEAFPG_CELLSOFFSET_OFFSET then
    put4byte d4 (base + PGHEADER_RIGHTPG_OFFSET) 0
  else d4

/-- Check that `count` bytes of `h` starting at `off` equal the given
constant list (`!memcmp(bs, &h[off], bs.length)`). -/
def matchBytes (h : Bytes) (off : Nat) : List Nat → Bool
  | [] => true
  | b :: bs => (h off % 256 == b % 256) && matchBytes h (off + 1) bs

/-- The header validation chain of `chidb_Btree_open`, for an existing
non-empty file, exactly as the C writes it: NOTE the magic comparison uses
`memcmp(..., 0x0F)`, i.e. only the 15 characters of `"SQLite format 3"` —
byte 15 (the terminating 0 that `chidb_Btree_initEmptyNode` writes) is not
compared. -/
def headerChecksPass (h : Bytes) : Bool :=
  matchBytes h 0 magicBytes &&
  matchBytes h 0x12 [0x01, 0x01, 0x00, 0x40, 0x20, 0x20] &&
  matchBytes h 0x20 [0, 0, 0, 0] &&
  matchBytes h 0x24 [0, 0, 0, 0] &&
  matchBytes h 0x2C [0, 0, 0, 1] &&
  matchBytes h 0x34 [0, 0, 0, 0] &&
  matchBytes h 0x38 [0, 0, 0, 1] &&
  matchBytes h 0x40 [0, 0, 0, 0] &&
  matchBytes h HEADER_FILECHANGE [0, 0, 0, 0] &&
  matchBytes h HEADER_SCHEMA [0, 0, 0, 0] &&
  matchBytes h HEADER_PAGECACHESIZE [0, 0, 0x4E, 0x20] &&
  matchBytes h HEADER_COOKIE [0, 0, 0, 0]

/-- The existing-non-empty-file path of `chidb_Btree_open`: read the
100-byte header, run the validation chain; on success configure the pager
with the page size at offset 16 and return `CHIDB_OK`, otherwise return
`CHIDB_ECORRUPTHEADER` (the second component is the configured page size,
0 when rejected). -/
def chidb_Btree_open_existing (h : Bytes) : Status × Nat :=
  if headerChecksPass h then (.ok, get2byte h HEADER_PAGESIZE)
  else (.ecorruptheader, 0)

/-- `lo < k` for an optional strict lower bound. -/
def OltK : Option Nat → Nat → Prop
  | none, _ => True
  | some l, k => l < k

/-- `k ≤ hi` for an optional inclusive upper bound. -/
def OleK : Option Nat → Nat → Prop
  | none, _ => True
  | some h, k => k ≤ h

/-- The keys of a cell list. -/
def cellKeys (cs : List BTreeCell) : List Nat := cs.map cellKey

/-- All keys within the half-open interval `(lo, hi]`. -/
def keysBounded (lo hi : Option Nat) (ks : List Nat) : Prop :=
  ∀ k ∈ ks, OltK lo k ∧ OleK hi k

/-- A table-leaf cell whose recorded `data_size` equals its payload
length (what `chidb_Btree_insertCell` stores for any in-bounds payload). -/
def isLeafCellWf : BTreeCell → Prop
  | .tableLeaf _ sz d => sz = d.length
  | _ => False

/-- The strict lower bound handed to the `i`-th child of an internal node:
the parent's own lower bound for `i = 0`, else the key of cell `i - 1`. -/
def boundAt (lo : Option Nat) (cs : List BTreeCell) (i : Nat) : Option Nat :=
  if i = 0 then lo else some (cellKey (cs.getD (i - 1) default))

/-- The strict lower bound of the `right_page` subtree: the last cell key
(or the node's own lower bound if it has no cells). -/
def lastBound (lo : Option Nat) (cs : List BTreeCell) : Option Nat :=
  boundAt lo cs cs.length

/-- Well-formed table-leaf node at page `p` holding exactly the entry list
`es`, with all keys in `(lo, hi]`, strictly increasing.  With
`strict = true` the leaf must be nonempty. -/
def TLeaf (bt : BTree) (strict : Bool) (p : Nat) (lo hi : Option Nat)
    (es : List BTreeCell) : Prop :=
  ∃ nd : BTreeNode,
    chidb_Btree_getNodeByPage bt p = some nd ∧
    nd.npage = p ∧
    nd.type = PGTYPE_TABLE_LEAF ∧
    nd.n_cells = nd.cells.length ∧
    nd.cells.length < 65536 ∧
    (strict = true → nd.cells ≠ []) ∧
    (∀ c ∈ nd.cells, isLeafCellWf c) ∧
    List.Chain' (· < ·) (cellKeys nd.cells) ∧
    keysBounded lo hi (cellKeys nd.cells) ∧
    es = nd.cells

/-- The children of an internal node: cell `i` is `tableInternal chᵢ kᵢ`
and the subtree under `chᵢ` (satisfying the predicate `T`, instantiated
with `TTree` at the next height down) holds the entries `essᵢ`, bounded by
the preceding key below and by `kᵢ` above. -/
def TKids (T : Nat → Option Nat → Option Nat → List BTreeCell → Prop) :
    Option Nat → List BTreeCell → List (List BTreeCell) → Prop
  | _, [], ess => ess = []
  | lo, c :: cs, ess =>
    ∃ ch k es1 ess',
      c = .tableInternal ch k ∧ ess = es1 :: ess' ∧
      T ch lo (some k) es1 ∧ TKids T (some k) cs ess'

/-- The key-order invariant of a table B-Tree rooted at page `p` (spec
section 3): a height-indexed, well-founded description of the tree as the
find/cursor code reads it through `chidb_Btree_getNodeByPage` and
`chidb_Btree_getCell`.  `es` is the concatenated list of leaf cells in
order; with `strict = true` every leaf holds at least one cell. -/
def TTree (bt : BTree) (strict : Bool) : Nat → Nat → Option Nat → Option Nat →
    List BTreeCell → Prop
  | 0, p, lo, hi, es => TLeaf bt strict p lo hi es
  | h + 1, p, lo, hi, es =>
    TLeaf bt strict p lo hi es ∨
    ∃ (nd : BTreeNode) (ess : List (List BTreeCell)) (esR : List BTreeCell),
      chidb_Btree_getNodeByPage bt p = some nd ∧
      nd.npage = p ∧
      nd.type = PGTYPE_TABLE_INTERNAL ∧
      nd.n_cells = nd.cells.length ∧
      nd.cells.length < 65536 ∧
      List.Chain' (· < ·) (cellKeys nd.cells) ∧
      keysBounded lo hi (cellKeys nd.cells) ∧
      TKids (TTree bt strict h) lo nd.cells ess ∧
      TTree bt strict h nd.right_page (lastBound lo nd.cells) hi esR ∧
      es = ess.flatten ++ esR

/-- The entry stored under `key` in an entry list: the `(data_size, data)`
of the first table-leaf cell with that key. -/
def entryFor (key : Nat) : List BTreeCell → Option (Nat × List Nat)
  | [] => none
  | .tableLeaf k sz d :: rest => if k = key then some (sz, d) else entryFor key rest
  | _ :: rest => entryFor key rest

/-- The status and out-parameters `chidb_Btree_find` must produce for a
tree holding the entries `es`. -/
def resultFor (key : Nat) (es : List BTreeCell) : Status × Option (Nat × List Nat) :=
  match entryFor key es with
  | some r => (.ok, some r)
  | none => (.enotfound, none)

/-- The data of branch `i` of an internal node: target page, lower bound
and upper bound, as `chidb_dbm_cursor_table_down` computes the target
(`cells[i].child` for `i < n_cells`, else `right_page`). -/
def branchData (nd : BTreeNode) (lo hi : Option Nat) (i : Nat) :
    Nat × Option Nat × Option Nat :=
  if i < nd.cells.length then
    (cellChildPage (nd.cells.getD i default), boundAt lo nd.cells i,
      some (cellKey (nd.cells.getD i default)))
  else (nd.right_page, lastBound lo nd.cells, hi)

/-- The entries of the branches strictly after branch `i` of an internal
node with `n` cells, child entry lists `ess` and right-subtree entries
`esR`. -/
def restAfter (ess : List (List BTreeCell)) (esR : List BTreeCell) (i n : Nat) :
    List BTreeCell :=
  if i < n then (ess.drop (i + 1)).flatten ++ esR else []

/-- The well-formedness facts about one internal node that a trail entry
pins: the node as stored, its separators, its children subtrees (entry
lists `ess`) and its right subtree (`esR`), all at height `h`. -/
def IntWf (bt : BTree) (h : Nat) (nd : BTreeNode) (lo hi : Option Nat)
    (ess : List (List BTreeCell)) (esR : List BTreeCell) : Prop :=
  chidb_Btree_getNodeByPage bt nd.npage = some nd ∧
  nd.type = PGTYPE_TABLE_INTERNAL ∧
  nd.n_cells = nd.cells.length ∧
  nd.cells.length < 65536 ∧
  List.Chain' (· < ·) (cellKeys nd.cells) ∧
  keysBounded lo hi (cellKeys nd.cells) ∧
  TKids (TTree bt true h) lo nd.cells ess ∧
  TTree bt true h nd.right_page (lastBound lo nd.cells) hi esR

/-- The ancestor part of a cursor trail: `Anc bt H anc h p lo hi rest`
says the entries of `anc` (deepest first) are internal nodes positioned so
that the next descent target is page `p` with bounds `(lo, hi]`, expecting
a subtree of height index `h`, and that the entries still to be visited
AFTER the subtree at `p` are exactly `rest`.  `H` bounds the root height,
which also bounds the trail length. -/
def Anc (bt : BTree) (H : Nat) : List TrailNode → Nat → Nat → Option Nat → Option Nat →
    List BTreeCell → Prop
  | [], h, _, lo, hi, rest => h ≤ H ∧ lo = none ∧ hi = none ∧ rest = []
  | tn :: anc, h, p, lo, hi, rest =>
    ∃ (lo0 hi0 : Option Nat) (ess : List (List BTreeCell)) (esR restUp : List BTreeCell),
      IntWf bt h tn.node lo0 hi0 ess esR ∧
      Anc bt H anc (h + 1) tn.node.npage lo0 hi0 restUp ∧
      tn.cell_num ≤ tn.node.n_cells ∧
      branchData tn.node lo0 hi0 tn.cell_num = (p, lo, hi) ∧
      rest = restAfter ess esR tn.cell_num tn.node.n_cells ++ restUp

/-- The cursor-position invariant: the trail's deepest entry is a
well-formed, nonempty table leaf positioned at cell `i`, the remaining
trail is a well-formed ancestor stack, and `rest` is exactly the list of
leaf cells still to be visited after the current one. -/
def Pos (bt : BTree) (H : Nat) (c : Cursor) (rest : List BTreeCell) : Prop :=
  ∃ (nd : BTreeNode) (i : Nat) (anc : List TrailNode) (h : Nat)
    (lo hi : Option Nat) (restUp : List BTreeCell),
    c.trail = ⟨nd, i⟩ :: anc ∧
    chidb_Btree_getNodeByPage bt nd.npage = some nd ∧
    nd.type = PGTYPE_TABLE_LEAF ∧
    nd.n_cells = nd.cells.length ∧
    nd.cells.length < 65536 ∧
    nd.cells ≠ [] ∧
    i < nd.n_cells ∧
    Anc bt H anc h nd.npage lo hi restUp ∧
    rest = nd.cells.drop (i + 1) ++ restUp

def C4parent : BTreeNode :=
  { npage := 1, type := PGTYPE_TABLE_INTERNAL, free_offset := 112, n_cells := 1,
    cells_offset := 900, right_page := 2, cells := [.tableInternal 2 100] }

def C4child : BTreeNode :=
  { npage := 2, type := PGTYPE_TABLE_LEAF, free_offset := 32, n_cells := 3,
    cells_offset := 500, right_page := 0,
    cells := [.tableLeaf 10 0 [], .tableLeaf 20 0 [], .tableLeaf 30 0 []] }

def C4bt : BTree :=
  { pages := fun p => if p = 1 then some C4parent else if p = 2 then some C4child else none,
    n_pages := 2, page_size := 1024 }

def C1leaf : BTreeNode :=
  { npage := 1, type := PGTYPE_TABLE_LEAF, free_offset := 16, n_cells := 1,
    cells_offset := 1000, right_page := 0, cells := [.tableLeaf 7 2 [5, 6]] }

def C1bt : BTree :=
  { pages := fun p => if p = 1 then some C1leaf else none, n_pages := 1, page_size := 1024 }

def C2wroot : BTreeNode :=
  { npage := 1, type := PGTYPE_TABLE_LEAF, free_offset := 16, n_cells := 1,
    cells_offset := 1000, right_page := 0, cells := [.tableLeaf 7 2 [5, 6]] }

def C2wbt : BTree :=
  { pages := fun p => if p = 1 then some C2wroot else none, n_pages := 1, page_size := 1024 }

def C2bt0 : BTree :=
  { pages := fun p => if p = 1 then
      some { npage := 1, type := PGTYPE_TABLE_LEAF, free_offset := 12, n_cells := 0,
             cells_offset := 40, right_page := 0, cells := [] }
    else none,
    n_pages := 1, page_size := 100 }

def C2bt1 : BTree := (chidb_Btree_insert C2bt0 5 1 (.tableLeaf 2 1 [7])).2

def C2bt2 : BTree := (chidb_Btree_insert C2bt1 5 1 (.tableLeaf 3 1 [7])).2

def C3wleaf : BTreeNode :=
  { npage := 1, type := PGTYPE_TABLE_LEAF, free_offset := 16, n_cells := 2,
    cells_offset := 900, right_page := 0,
    cells := [.tableLeaf 4 1 [0], .tableLeaf 9 1 [0]] }

def C3wbt : BTree :=
  { pages := fun p => if p = 1 then some C3wleaf else none, n_pages := 1, page_size := 1024 }

def C3wcur : Cursor := { root_page := 1, trail := [], cell := default }

def C3xroot : BTreeNode :=
  { npage := 1, type := PGTYPE_TABLE_INTERNAL, free_offset := 16, n_cells := 1,
    cells_offset := 900, right_page := 3, cells := [.tableInternal 2 10] }

def C3xleaf2 : BTreeNode :=
  { npage := 2, type := PGTYPE_TABLE_LEAF, free_offset := 12, n_cells := 1,
    cells_offset := 900, right_page := 0, cells := [.tableLeaf 5 1 [0]] }

def C3xleaf3 : BTreeNode :=
  { npage := 3, type := PGTYPE_TABLE_LEAF, free_offset := 8, n_cells := 0,
    cells_offset := 1024, right_page := 0, cells := [] }

def C3xbt : BTree :=
  { pages := fun p =>
      if p = 1 then some C3xroot
      else if p = 2 then some C3xleaf2
      else if p = 3 then some C3xleaf3
      else none,
    n_pages := 3, page_size := 1024 }

def C3xcur : Cursor := { root_page := 1, trail := [], cell := default }

def C7leaf : BTreeNode :=
  { npage := 1, type := PGTYPE_TABLE_LEAF, free_offset := 8, n_cells := 0,
    cells_offset := 1024, right_page := 0, cells := [] }

def C7bt : BTree :=
  { pages := fun p => if p = 1 then some C7leaf else none, n_pages := 1, page_size := 1024 }

def C7cur : Cursor := { root_page := 1, trail := [], cell := default }

def C9page : Bytes := fun _ => 0xAB

def C6valid : Bytes := chidb_Btree_initEmptyNode_bytes (fun _ => 0) 1 1024 PGTYPE_TABLE_LEAF

def C6hdr : Bytes := put1 C6valid 15 0xFF

theorem cellsUpTo_eq {nd : BTreeNode} (h : nd.n_cells = nd.cells.length) :
    cellsUpTo nd = nd.cells := by
  simp [cellsUpTo, h]

theorem OltK_lt {lo : Option Nat} {k x : Nat} (h1 : OltK lo k) (h2 : k < x) :
    OltK lo x := by
  cases lo with
  | none => trivial
  | some l => exact Nat.lt_trans h1 h2

theorem OleK_le {hi : Option Nat} {k x : Nat} (h1 : x ≤ k) (h2 : OleK hi k) :
    OleK hi x := by
  cases hi with
  | none => trivial
  | some h => exact Nat.le_trans h1 h2

theorem keys_pairwise {cs : List BTreeCell}
    (h : List.Chain' (· < ·) (cellKeys cs)) :
    List.Pairwise (· < ·) (cellKeys cs) :=
  List.chain'_iff_pairwise.mp h

theorem chain'_keys_tail {c : BTreeCell} {cs : List BTreeCell}
    (h : List.Chain' (· < ·) (cellKeys (c :: cs))) :
    List.Chain' (· < ·) (cellKeys cs) := by
  simpa [cellKeys] using h.tail

theorem keys_head_lt {c : BTreeCell} {cs : List BTreeCell}
    (h : List.Chain' (· < ·) (cellKeys (c :: cs))) :
    ∀ k ∈ cellKeys cs, cellKey c < k := by
  intro k hk
  have hp := keys_pairwise h
  simp only [cellKeys, List.map_cons] at hp
  exact (List.pairwise_cons.mp hp).1 k hk

theorem lastBound_cons (lo : Option Nat) (c : BTreeCell) (cs : List BTreeCell) :
    lastBound lo (c :: cs) = lastBound (some (cellKey c)) cs := by
  cases cs with
  | nil => simp [lastBound, boundAt]
  | cons c2 cs2 =>
    simp only [lastBound, boundAt, List.length_cons]
    simp

theorem TKids_mono_pred {T T' : Nat → Option Nat → Option Nat → List BTreeCell → Prop}
    (hTT : ∀ p lo hi es, T p lo hi es → T' p lo hi es) :
    ∀ (cs : List BTreeCell) (lo : Option Nat) (ess : List (List BTreeCell)),
      TKids T lo cs ess → TKids T' lo cs ess := by
  intro cs
  induction cs with
  | nil => intro lo ess h; exact h
  | cons c cs ih =>
    intro lo ess h
    obtain ⟨ch, k, es1, ess', hc, hess, hT, hrest⟩ := h
    exact ⟨ch, k, es1, ess', hc, hess, hTT _ _ _ _ hT, ih _ _ hrest⟩

theorem TTree_succ {bt : BTree} {s : Bool} :
    ∀ {h p lo hi es}, TTree bt s h p lo hi es → TTree bt s (h + 1) p lo hi es := by
  intro h
  induction h with
  | zero => intro p lo hi es ht; exact Or.inl ht
  | succ h ih =>
    intro p lo hi es ht
    cases ht with
    | inl hl => exact Or.inl hl
    | inr hint =>
      obtain ⟨nd, ess, esR, h1, h2, h3, h4, h5, h6, h7, h8, h9, h10⟩ := hint
      exact Or.inr ⟨nd, ess, esR, h1, h2, h3, h4, h5, h6, h7,
        TKids_mono_pred (fun _ _ _ _ => ih) _ _ _ h8, ih h9, h10⟩

theorem TTree_le {bt : BTree} {s : Bool} {h h' : Nat} (hle : h ≤ h') :
    ∀ {p lo hi es}, TTree bt s h p lo hi es → TTree bt s h' p lo hi es := by
  induction hle with
  | refl => intro _ _ _ _ ht; exact ht
  | step _ ih => intro _ _ _ _ ht; exact TTree_succ (ih ht)

theorem TTree_ne_nil {bt : BTree} :
    ∀ {h p lo hi es}, TTree bt true h p lo hi es → es ≠ [] := by
  intro h
  induction h with
  | zero =>
    intro p lo hi es ht
    obtain ⟨nd, _, _, _, _, _, hne, _, _, _, hes⟩ := ht
    rw [hes]; exact hne rfl
  | succ h ih =>
    intro p lo hi es ht
    cases ht with
    | inl hl =>
      obtain ⟨nd, _, _, _, _, _, hne, _, _, _, hes⟩ := hl
      rw [hes]; exact hne rfl
    | inr hint =>
      obtain ⟨nd, ess, esR, _, _, _, _, _, _, _, _, h9, h10⟩ := hint
      intro habs
      rw [h10] at habs
      exact ih h9 (List.append_eq_nil.mp habs).2

/-- Bounds of the entries below an internal node's cell list plus its
right subtree, given the bounds lemma for the height below (`hB`). -/
theorem TKidsR_bounds {bt : BTree} {s : Bool} {h : Nat} {hi : Option Nat}
    {rp : Nat} {esR : List BTreeCell}
    (hB : ∀ p lo hi es, TTree bt s h p lo hi es →
      ∀ c ∈ es, OltK lo (cellKey c) ∧ OleK hi (cellKey c)) :
    ∀ (cs : List BTreeCell) (lo : Option Nat) (ess : List (List BTreeCell)),
      TKids (TTree bt s h) lo cs ess →
      List.Chain' (· < ·) (cellKeys cs) →
      keysBounded lo hi (cellKeys cs) →
      TTree bt s h rp (lastBound lo cs) hi esR →
      ∀ c ∈ ess.flatten ++ esR, OltK lo (cellKey c) ∧ OleK hi (cellKey c) := by
  intro cs
  induction cs with
  | nil =>
    intro lo ess hk _ _ hR c hc
    rw [hk] at hc
    simp only [List.flatten_nil, List.nil_append] at hc
    exact hB _ _ _ _ hR c hc
  | cons c0 cs ih =>
    intro lo ess hk hchain hbnd hR c hc
    obtain ⟨ch, k, es1, ess', hc0, hess, hT, hrest⟩ := hk
    have hkmem : cellKey c0 ∈ cellKeys (c0 :: cs) := by simp [cellKeys]
    have hkb := hbnd _ hkmem
    have hkeq : cellKey c0 = k := by rw [hc0]; rfl
    rw [hess] at hc
    simp only [List.flatten_cons, List.append_assoc, List.mem_append] at hc
    rcases hc with hc1 | hc2
    · have := hB _ _ _ _ hT c hc1
      exact ⟨this.1, OleK_le this.2 (hkeq ▸ hkb.2)⟩
    · have hbnd' : keysBounded (some k) hi (cellKeys cs) := by
        intro k' hk'
        have hk'' : k' ∈ cellKeys (c0 :: cs) := by
          simp only [cellKeys, List.map_cons]
          exact List.mem_cons_of_mem _ hk'
        exact ⟨hkeq ▸ keys_head_lt hchain k' hk', (hbnd k' hk'').2⟩
      have hR' : TTree bt s h rp (lastBound (some k) cs) hi esR := by
        have hlb := lastBound_cons lo c0 cs
        rw [hlb, hkeq] at hR
        exact hR
      have := ih (some k) ess' hrest (chain'_keys_tail hchain) hbnd' hR' c (by
        simp only [List.mem_append]; exact hc2.imp id id)
      exact ⟨OltK_lt (hkeq ▸ hkb.1) this.1, this.2⟩

/-- Every entry of a well-formed subtree lies in `(lo, hi]`. -/
theorem TTree_bounds {bt : BTree} {s : Bool} :
    ∀ {h : Nat} {p lo hi es}, TTree bt s h p lo hi es →
      ∀ c ∈ es, OltK lo (cellKey c) ∧ OleK hi (cellKey c) := by
  intro h
  induction h with
  | zero =>
    intro p lo hi es ht c hc
    obtain ⟨nd, _, _, _, _, _, _, _, _, hbnd, hes⟩ := ht
    exact hbnd (cellKey c) (by rw [hes] at hc; exact List.mem_map.mpr ⟨c, hc, rfl⟩)
  | succ h ih =>
    intro p lo hi es ht c hc
    cases ht with
    | inl hl =>
      obtain ⟨nd, _, _, _, _, _, _, _, _, hbnd, hes⟩ := hl
      exact hbnd (cellKey c) (by rw [hes] at hc; exact List.mem_map.mpr ⟨c, hc, rfl⟩)
    | inr hint =>
      obtain ⟨nd, ess, esR, _, _, _, _, _, h6, h7, h8, h9, h10⟩ := hint
      rw [h10] at hc
      exact TKidsR_bounds (fun p lo hi es ht => ih ht) _ _ _ h8 h6 h7 h9 c hc

theorem cellKeys_append (a b : List BTreeCell) :
    cellKeys (a ++ b) = cellKeys a ++ cellKeys b := by
  simp [cellKeys]

/-- Sortedness of the entries below an internal node's cell list plus its
right subtree, given sortedness (`hS`) and bounds (`hB`) for the height
below. -/
theorem TKidsR_sorted {bt : BTree} {s : Bool} {h : Nat} {hi : Option Nat}
    {rp : Nat} {esR : List BTreeCell}
    (hB : ∀ p lo hi es, TTree bt s h p lo hi es →
      ∀ c ∈ es, OltK lo (cellKey c) ∧ OleK hi (cellKey c))
    (hS : ∀ p lo hi es, TTree bt s h p lo hi es →
      List.Pairwise (· < ·) (cellKeys es)) :
    ∀ (cs : List BTreeCell) (lo : Option Nat) (ess : List (List BTreeCell)),
      TKids (TTree bt s h) lo cs ess →
      List.Chain' (· < ·) (cellKeys cs) →
      keysBounded lo hi (cellKeys cs) →
      TTree bt s h rp (lastBound lo cs) hi esR →
      List.Pairwise (· < ·) (cellKeys (ess.flatten ++ esR)) := by
  intro cs
  induction cs with
  | nil =>
    intro lo ess hk _ _ hR
    rw [hk]
    simpa using hS _ _ _ _ hR
  | cons c0 cs ih =>
    intro lo ess hk hchain hbnd hR
    obtain ⟨ch, k, es1, ess', hc0, hess, hT, hrest⟩ := hk
    have hkeq : cellKey c0 = k := by rw [hc0]; rfl
    have hbnd' : keysBounded (some k) hi (cellKeys cs) := by
      intro k' hk'
      have hk'' : k' ∈ cellKeys (c0 :: cs) := by
        simp only [cellKeys, List.map_cons]
        exact List.mem_cons_of_mem _ hk'
      exact ⟨hkeq ▸ keys_head_lt hchain k' hk', (hbnd k' hk'').2⟩
    have hR' : TTree bt s h rp (lastBound (some k) cs) hi esR := by
      have hlb := lastBound_cons lo c0 cs
      rw [hlb, hkeq] at hR
      exact hR
    have htail := ih (some k) ess' hrest (chain'_keys_tail hchain) hbnd' hR'
    rw [hess]
    simp only [List.flatten_cons, List.append_assoc]
    rw [cellKeys_append]
    rw [List.pairwise_append]
    refine ⟨hS _ _ _ _ hT, htail, ?_⟩
    intro x hx y hy
    obtain ⟨cx, hcx, hcxk⟩ := List.mem_map.mp hx
    obtain ⟨cy, hcy, hcyk⟩ := List.mem_map.mp hy
    have hxle : x ≤ k := by
      have := hB _ _ _ _ hT cx hcx
      rw [hcxk] at this
      exact this.2
    have hygt : k < y := by
      have := TKidsR_bounds hB cs (some k) ess' hrest (chain'_keys_tail hchain) hbnd' hR' cy hcy
      rw [hcyk] at this
      exact this.1
    exact Nat.lt_of_le_of_lt hxle hygt

/-- The entries of a well-formed subtree are strictly increasing in key. -/
theorem TTree_sorted {bt : BTree} {s : Bool} :
    ∀ {h : Nat} {p lo hi es}, TTree bt s h p lo hi es →
      List.Pairwise (· < ·) (cellKeys es) := by
  intro h
  induction h with
  | zero =>
    intro p lo hi es ht
    obtain ⟨nd, _, _, _, _, _, _, _, hchain, _, hes⟩ := ht
    rw [hes]
    exact keys_pairwise hchain
  | succ h ih =>
    intro p lo hi es ht
    cases ht with
    | inl hl =>
      obtain ⟨nd, _, _, _, _, _, _, _, hchain, _, hes⟩ := hl
      rw [hes]
      exact keys_pairwise hchain
    | inr hint =>
      obtain ⟨nd, ess, esR, _, _, _, _, _, h6, h7, h8, h9, h10⟩ := hint
      rw [h10]
      exact TKidsR_sorted (fun p lo hi es ht => TTree_bounds ht)
        (fun p lo hi es ht => ih ht) _ _ _ h8 h6 h7 h9

theorem entryFor_eq_none {key : Nat} :
    ∀ {es : List BTreeCell}, (∀ c ∈ es, cellKey c ≠ key) → entryFor key es = none := by
  intro es
  induction es with
  | nil => intro _; rfl
  | cons c rest ih =>
    intro hne
    cases c with
    | tableLeaf k sz d =>
      have : k ≠ key := by
        have := hne (.tableLeaf k sz d) (List.mem_cons_self _ _)
        simpa [cellKey] using this
      simp only [entryFor, if_neg this]
      exact ih (fun c hc => hne c (List.mem_cons_of_mem _ hc))
    | tableInternal ch k => exact ih (fun c hc => hne c (List.mem_cons_of_mem _ hc))
    | indexInternal ch k pk => exact ih (fun c hc => hne c (List.mem_cons_of_mem _ hc))
    | indexLeaf k pk => exact ih (fun c hc => hne c (List.mem_cons_of_mem _ hc))

theorem entryFor_append (key : Nat) :
    ∀ (a b : List BTreeCell), entryFor key (a ++ b) =
      (match entryFor key a with
       | some r => some r
       | none => entryFor key b) := by
  intro a
  induction a with
  | nil => intro b; rfl
  | cons c rest ih =>
    intro b
    cases c with
    | tableLeaf k sz d =>
      by_cases hk : k = key
      · simp [entryFor, hk]
      · simp only [List.cons_append, entryFor, if_neg hk]
        exact ih b
    | tableInternal ch k => simpa [entryFor] using ih b
    | indexInternal ch k pk => simpa [entryFor] using ih b
    | indexLeaf k pk => simpa [entryFor] using ih b

theorem entryFor_append_of_left_none {key : Nat} {a b : List BTreeCell}
    (h : entryFor key a = none) : entryFor key (a ++ b) = entryFor key b := by
  rw [entryFor_append, h]

/-- The scan loop of `chidb_Btree_find` is correct on a table-leaf node. -/
theorem find_scan_leaf {bt : BTree} {nd : BTreeNode} {key : Nat}
    {recur : Nat → FindRes} (htype : nd.type = PGTYPE_TABLE_LEAF) :
    ∀ cs : List BTreeCell, List.Chain' (· < ·) (cellKeys cs) →
      (∀ c ∈ cs, isLeafCellWf c) →
      chidb_Btree_find_scan bt nd key recur cs = (resultFor key cs, bt) := by
  intro cs
  induction cs with
  | nil =>
    intro _ _
    simp [chidb_Btree_find_scan, htype, resultFor, entryFor]
  | cons c rest ih =>
    intro hchain hwf
    have hwfc := hwf c (List.mem_cons_self _ _)
    cases c with
    | tableLeaf k sz d =>
      have hsz : sz = d.length := hwfc
      by_cases hk : k = key
      · have hck : cellKey (BTreeCell.tableLeaf k sz d) = key := by simpa [cellKey]
        simp only [chidb_Btree_find_scan, hck, htype, and_self, if_pos, if_true]
        simp only [resultFor, entryFor, if_pos hk]
        have : d.take sz = d := by rw [hsz]; exact List.take_length d
        simp [this]
      · have hck : cellKey (BTreeCell.tableLeaf k sz d) = k := rfl
        by_cases hlt : key ≤ k
        · have hklt : key < k := Nat.lt_of_le_of_ne hlt (fun h => hk h.symm)
          have hcond : ¬(cellKey (BTreeCell.tableLeaf k sz d) = key ∧
              nd.type = PGTYPE_TABLE_LEAF) := by
            rw [hck]; intro h; exact hk h.1
          simp only [chidb_Btree_find_scan, if_neg hcond, hck, if_pos hlt, htype, if_pos rfl]
          have hrest : entryFor key rest = none := by
            apply entryFor_eq_none
            intro c hc
            have := keys_head_lt hchain (cellKey c) (List.mem_map.mpr ⟨c, hc, rfl⟩)
            rw [hck] at this
            omega
          simp [resultFor, entryFor, if_neg hk, hrest]
        · have hcond : ¬(cellKey (BTreeCell.tableLeaf k sz d) = key ∧
              nd.type = PGTYPE_TABLE_LEAF) := by
            rw [hck]; intro h; exact hk h.1
          simp only [chidb_Btree_find_scan, if_neg hcond, hck, if_neg hlt]
          rw [ih (chain'_keys_tail hchain) (fun c hc => hwf c (List.mem_cons_of_mem _ hc))]
          simp only [resultFor, entryFor, if_neg hk]
          exact if_neg (fun h => hk h.1)
    | tableInternal ch k => exact absurd hwfc (by simp [isLeafCellWf])
    | indexInternal ch k pk => exact absurd hwfc (by simp [isLeafCellWf])
    | indexLeaf k pk => exact absurd hwfc (by simp [isLeafCellWf])

/-- Lower bound of all entries under an internal node's cell list plus its
right subtree. -/
theorem TKidsR_lower {bt : BTree} {s : Bool} {h : Nat} {hi : Option Nat}
    {rp : Nat} {esR : List BTreeCell} :
    ∀ (cs : List BTreeCell) (lo : Option Nat) (ess : List (List BTreeCell)),
      TKids (TTree bt s h) lo cs ess →
      List.Chain' (· < ·) (cellKeys cs) →
      (∀ k' ∈ cellKeys cs, OltK lo k') →
      TTree bt s h rp (lastBound lo cs) hi esR →
      ∀ c ∈ ess.flatten ++ esR, OltK lo (cellKey c) := by
  intro cs
  induction cs with
  | nil =>
    intro lo ess hk _ _ hR c hc
    rw [hk] at hc
    simp only [List.flatten_nil, List.nil_append] at hc
    exact (TTree_bounds hR c hc).1
  | cons c0 cs ih =>
    intro lo ess hk hchain hlow hR c hc
    obtain ⟨ch, k, es1, ess', hc0, hess, hT, hrest⟩ := hk
    have hkeq : cellKey c0 = k := by rw [hc0]; rfl
    have hklo : OltK lo k := hkeq ▸ hlow _ (by simp [cellKeys])
    rw [hess] at hc
    simp only [List.flatten_cons, List.append_assoc, List.mem_append] at hc
    rcases hc with hc1 | hc2
    · exact (TTree_bounds hT c hc1).1
    · have hR' : TTree bt s h rp (lastBound (some k) cs) hi esR := by
        have hlb := lastBound_cons lo c0 cs
        rw [hlb, hkeq] at hR
        exact hR
      have hlow' : ∀ k' ∈ cellKeys cs, OltK (some k) k' := by
        intro k' hk'
        exact hkeq ▸ keys_head_lt hchain k' hk'
      have := ih (some k) ess' hrest (chain'_keys_tail hchain) hlow' hR' c
        (by simp only [List.mem_append]; exact hc2.imp id id)
      exact OltK_lt hklo this

/-- The scan loop of `chidb_Btree_find` is correct on a table-internal
node, given correctness of the recursive call at the height below. -/
theorem find_scan_int {bt : BTree} {nd : BTreeNode} {key : Nat} {h fuel : Nat}
    {hi : Option Nat}
    (Hrec : ∀ p lo hi es, TTree bt false h p lo hi es →
      chidb_Btree_find bt fuel p key = (resultFor key es, bt))
    (htype : nd.type = PGTYPE_TABLE_INTERNAL) :
    ∀ (cs : List BTreeCell) (lo : Option Nat) (ess : List (List BTreeCell))
      (esR : List BTreeCell),
      TKids (TTree bt false h) lo cs ess →
      List.Chain' (· < ·) (cellKeys cs) →
      TTree bt false h nd.right_page (lastBound lo cs) hi esR →
      chidb_Btree_find_scan bt nd key (fun p => chidb_Btree_find bt fuel p key) cs
        = (resultFor key (ess.flatten ++ esR), bt) := by
  intro cs
  induction cs with
  | nil =>
    intro lo ess esR hk _ hR
    rw [hk]
    have hnl : nd.type ≠ PGTYPE_TABLE_LEAF := by
      rw [htype]; intro hx; exact absurd hx (by decide)
    simp only [chidb_Btree_find_scan, if_neg hnl, List.flatten_nil, List.nil_append]
    exact Hrec _ _ _ _ hR
  | cons c0 cs ih =>
    intro lo ess esR hk hchain hR
    obtain ⟨ch, k, es1, ess', hc0, hess, hT, hrest⟩ := hk
    have hkeq : cellKey c0 = k := by rw [hc0]; rfl
    have hnl : nd.type ≠ PGTYPE_TABLE_LEAF := by
      rw [htype]; intro hx; exact absurd hx (by decide)
    have hcond : ¬(cellKey c0 = key ∧ nd.type = PGTYPE_TABLE_LEAF) := by
      intro hx; exact hnl hx.2
    have hchp : cellChildPage c0 = ch := by rw [hc0]; rfl
    have hR' : TTree bt false h nd.right_page (lastBound (some k) cs) hi esR := by
      have hlb := lastBound_cons lo c0 cs
      rw [hlb, hkeq] at hR
      exact hR
    rw [hess]
    simp only [List.flatten_cons, List.append_assoc]
    by_cases hle : key ≤ cellKey c0
    · simp only [chidb_Btree_find_scan, if_neg hcond, if_pos hle, if_neg hnl, hchp]
      rw [Hrec _ _ _ _ hT]
      have hnone : ∀ c ∈ ess'.flatten ++ esR, cellKey c ≠ key := by
        intro c hc
        have hlow' : ∀ k' ∈ cellKeys cs, OltK (some k) k' := by
          intro k' hk'
          exact hkeq ▸ keys_head_lt hchain k' hk'
        have := TKidsR_lower cs (some k) ess' hrest (chain'_keys_tail hchain) hlow' hR' c hc
        rw [hkeq] at hle
        simp only [OltK] at this
        omega
      have hef : entryFor key (ess'.flatten ++ esR) = none := entryFor_eq_none hnone
      simp only [resultFor]
      rw [entryFor_append key es1 (ess'.flatten ++ esR), hef]
      cases hcase : entryFor key es1 with
      | none => simp
      | some r => simp
    · simp only [chidb_Btree_find_scan, if_neg hcond, if_neg hle]
      rw [ih (some k) ess' esR hrest (chain'_keys_tail hchain) hR']
      have h1 : entryFor key es1 = none := by
        apply entryFor_eq_none
        intro c hc
        have hub := (TTree_bounds hT c hc).2
        simp only [OleK] at hub
        rw [hkeq] at hle
        omega
      simp only [resultFor]
      rw [entryFor_append_of_left_none h1]

/-- `chidb_Btree_find` computes `resultFor` on any well-formed subtree,
given enough fuel, and leaves the store untouched. -/
theorem chidb_Btree_find_go {bt : BTree} {key : Nat} :
    ∀ (h fuel p : Nat) (lo hi : Option Nat) (es : List BTreeCell),
      TTree bt false h p lo hi es → h < fuel →
      chidb_Btree_find bt fuel p key = (resultFor key es, bt) := by
  intro h
  induction h with
  | zero =>
    intro fuel p lo hi es ht hfuel
    obtain ⟨f, rfl⟩ : ∃ f, fuel = f + 1 := ⟨fuel - 1, by omega⟩
    obtain ⟨nd, hget, hnp, htype, hnc, hlen, _, hwf, hchain, hbnd, hes⟩ := ht
    simp only [chidb_Btree_find, hget]
    rw [cellsUpTo_eq hnc, find_scan_leaf htype nd.cells hchain hwf, hes]
  | succ h ih =>
    intro fuel p lo hi es ht hfuel
    obtain ⟨f, rfl⟩ : ∃ f, fuel = f + 1 := ⟨fuel - 1, by omega⟩
    cases ht with
    | inl hl =>
      obtain ⟨nd, hget, hnp, htype, hnc, hlen, _, hwf, hchain, hbnd, hes⟩ := hl
      simp only [chidb_Btree_find, hget]
      rw [cellsUpTo_eq hnc, find_scan_leaf htype nd.cells hchain hwf, hes]
    | inr hint =>
      obtain ⟨nd, ess, esR, hget, hnp, htype, hnc, hlen, hchain, hbnd, hkids, hR, hes⟩ := hint
      simp only [chidb_Btree_find, hget]
      rw [cellsUpTo_eq hnc]
      have Hrec : ∀ p lo hi es, TTree bt false h p lo hi es →
          chidb_Btree_find bt f p key = (resultFor key es, bt) :=
        fun p lo hi es ht' => ih f p lo hi es ht' (by omega)
      rw [find_scan_int Hrec htype nd.cells lo ess esR hkids hchain hR, hes]

/-- A well-formed subtree's root page loads successfully. -/
theorem TTree_node {bt : BTree} {s : Bool} {h p : Nat} {lo hi : Option Nat}
    {es : List BTreeCell} (ht : TTree bt s h p lo hi es) :
    ∃ nd, chidb_Btree_getNodeByPage bt p = some nd ∧ nd.npage = p := by
  cases h with
  | zero => obtain ⟨nd, h1, h2, _⟩ := ht; exact ⟨nd, h1, h2⟩
  | succ h =>
    cases ht with
    | inl hl => obtain ⟨nd, h1, h2, _⟩ := hl; exact ⟨nd, h1, h2⟩
    | inr hint => obtain ⟨nd, _, _, h1, h2, _⟩ := hint; exact ⟨nd, h1, h2⟩

theorem headI_append {a b : List BTreeCell} (h : a ≠ []) :
    (a ++ b).headI = a.headI := by
  cases a with
  | nil => exact absurd rfl h
  | cons x xs => rfl

theorem tail_append_ne {a b : List BTreeCell} (h : a ≠ []) :
    (a ++ b).tail = a.tail ++ b := by
  cases a with
  | nil => exact absurd rfl h
  | cons x xs => rfl

theorem headI_eq_getD {l : List BTreeCell} (h : l ≠ []) :
    l.headI = l.getD 0 default := by
  cases l with
  | nil => exact absurd rfl h
  | cons x xs => rfl

theorem sub16_one {n : Nat} (h1 : 1 ≤ n) (h2 : n ≤ 65535) : sub16 n 1 = n - 1 := by
  simp only [sub16]
  omega

theorem TKids_length {T : Nat → Option Nat → Option Nat → List BTreeCell → Prop} :
    ∀ {cs : List BTreeCell} {lo : Option Nat} {ess : List (List BTreeCell)},
      TKids T lo cs ess → ess.length = cs.length := by
  intro cs
  induction cs with
  | nil => intro lo ess h; rw [h]; rfl
  | cons c cs ih =>
    intro lo ess h
    obtain ⟨ch, k, es1, ess', _, hess, _, hrest⟩ := h
    rw [hess]
    simp [ih hrest]

theorem boundAt_cons (lo : Option Nat) (c : BTreeCell) (cs : List BTreeCell) (i : Nat) :
    boundAt lo (c :: cs) (i + 1) = boundAt (some (cellKey c)) cs i := by
  cases i with
  | zero => simp [boundAt]
  | succ j => simp [boundAt, List.getD_cons_succ]

theorem TKids_idx {T : Nat → Option Nat → Option Nat → List BTreeCell → Prop} :
    ∀ {cs : List BTreeCell} {lo : Option Nat} {ess : List (List BTreeCell)},
      TKids T lo cs ess → ∀ i, i < cs.length →
        ∃ ch k, cs.getD i default = BTreeCell.tableInternal ch k ∧
          T ch (boundAt lo cs i) (some k) (ess.getD i []) := by
  intro cs
  induction cs with
  | nil => intro lo ess _ i hi; exact absurd hi (by simp)
  | cons c cs ih =>
    intro lo ess h i hi
    obtain ⟨ch, k, es1, ess', hc, hess, hT, hrest⟩ := h
    cases i with
    | zero =>
      refine ⟨ch, k, ?_, ?_⟩
      · rw [List.getD_cons_zero]; exact hc
      · rw [hess, List.getD_cons_zero]
        simpa [boundAt] using hT
    | succ j =>
      have hj : j < cs.length := by simpa using hi
      obtain ⟨ch', k', hcell, hT'⟩ := ih hrest j hj
      refine ⟨ch', k', ?_, ?_⟩
      · rw [List.getD_cons_succ]; exact hcell
      · rw [hess, List.getD_cons_succ, boundAt_cons]
        have : cellKey c = k := by rw [hc]; rfl
        rw [this]
        exact hT'

theorem restAfter_step {ess : List (List BTreeCell)} {esR : List BTreeCell}
    {i n : Nat} (hlen : ess.length = n) (hi : i < n) :
    restAfter ess esR i n =
      (if i + 1 < n then ess.getD (i + 1) [] else esR) ++ restAfter ess esR (i + 1) n := by
  by_cases h1 : i + 1 < n
  · have h2 : i + 1 < ess.length := by omega
    simp only [restAfter, if_pos hi, if_pos h1]
    rw [List.drop_eq_getElem_cons h2]
    simp only [List.flatten_cons, List.append_assoc]
    rw [List.getD_eq_getElem _ _ h2]
  · have h2 : i + 1 = n := by omega
    simp only [restAfter, if_pos hi, if_neg h1]
    rw [h2, ← hlen, List.drop_length]
    simp

theorem Anc_length {bt : BTree} {H : Nat} :
    ∀ {anc : List TrailNode} {h p : Nat} {lo hi : Option Nat} {rest : List BTreeCell},
      Anc bt H anc h p lo hi rest → anc.length + h ≤ H := by
  intro anc
  induction anc with
  | nil => intro h p lo hi rest ha; simpa using ha.1
  | cons tn anc ih =>
    intro h p lo hi rest ha
    obtain ⟨lo0, hi0, ess, esR, restUp, _, ha', _, _, _⟩ := ha
    have := ih ha'
    simp only [List.length_cons]
    omega

/-- Descent step of `chidb_dbm_cursor_table_down` arriving at a leaf. -/
theorem down_leaf_case {bt : BTree} {H : Nat} {p : Nat} {lo hi : Option Nat}
    {es : List BTreeCell} {nd : BTreeNode} {anc : List TrailNode}
    {restUp : List BTreeCell} {c : Cursor} {fuel h : Nat}
    (hl : TLeaf bt true p lo hi es)
    (hget : chidb_Btree_getNodeByPage bt p = some nd)
    (ha : Anc bt H anc h nd.npage lo hi restUp)
    (hfuel : 0 < fuel)
    (htrail : c.trail = ⟨nd, 0⟩ :: anc) :
    ∃ c', chidb_dbm_cursor_table_down bt fuel c true = (.ok, c') ∧
      Pos bt H c' (es.tail ++ restUp) ∧ c'.cell = es.headI := by
  obtain ⟨nd', hget', hnp, htype, hnc, hlen, hne, _, _, _, hes⟩ := hl
  obtain rfl : nd = nd' := by rw [hget] at hget'; exact Option.some.inj hget'
  have hne' : nd.cells ≠ [] := hne rfl
  obtain ⟨f, rfl⟩ : ∃ f, fuel = f + 1 := ⟨fuel - 1, by omega⟩
  have hguard : ¬(nd.n_cells < 0) := Nat.not_lt_zero _
  have hgetnp : chidb_Btree_getNodeByPage bt nd.npage = some nd := by
    rw [hnp]; exact hget
  refine ⟨{ c with cell := nd.cells.getD 0 default }, ?_, ?_, ?_⟩
  · simp only [chidb_dbm_cursor_table_down, htrail, htype, if_pos rfl, if_true,
      chidb_Btree_getCell, if_neg hguard]
  · refine ⟨nd, 0, anc, h, lo, hi, restUp, ?_, hgetnp, htype, hnc, hlen,
      hne', ?_, ha, ?_⟩
    · simp [htrail]
    · rw [hnc]
      exact List.length_pos.mpr hne'
    · rw [hes, List.drop_one]
  · rw [hes, headI_eq_getD hne']

/-- `chidb_dbm_cursor_table_down` started at the top of a well-formed
(strict) subtree descends to its leftmost leaf, lands on the subtree's
first entry, and leaves a valid cursor position whose remaining entries
are the subtree's remaining entries followed by the ancestors' pending
entries. -/
theorem down_main {bt : BTree} {H : Nat} :
    ∀ (h fuel p : Nat) (lo hi : Option Nat) (es : List BTreeCell)
      (nd : BTreeNode) (anc : List TrailNode) (restUp : List BTreeCell) (c : Cursor),
      TTree bt true h p lo hi es →
      chidb_Btree_getNodeByPage bt p = some nd →
      Anc bt H anc h p lo hi restUp →
      h < fuel →
      c.trail = ⟨nd, 0⟩ :: anc →
      ∃ c', chidb_dbm_cursor_table_down bt fuel c true = (.ok, c') ∧
        Pos bt H c' (es.tail ++ restUp) ∧ c'.cell = es.headI := by
  intro h
  induction h with
  | zero =>
    intro fuel p lo hi es nd anc restUp c ht hget ha hfuel htrail
    have hnp : nd.npage = p := by
      obtain ⟨nd', hget', hnp'⟩ := TTree_node ht
      rw [hget] at hget'
      rw [← Option.some.inj hget'] at hnp'
      exact hnp'
    exact down_leaf_case ht hget (hnp ▸ ha) hfuel htrail
  | succ h ih =>
    intro fuel p lo hi es nd anc restUp c ht hget ha hfuel htrail
    have hnp : nd.npage = p := by
      obtain ⟨nd', hget', hnp'⟩ := TTree_node ht
      rw [hget] at hget'
      rw [← Option.some.inj hget'] at hnp'
      exact hnp'
    cases ht with
    | inl hl => exact down_leaf_case hl hget (hnp ▸ ha) (by omega) htrail
    | inr hint =>
      obtain ⟨nd', ess, esR, hget', hnp', htype, hnc, hlen, hchain, hbnd, hkids, hR, hes⟩ := hint
      obtain rfl : nd = nd' := by rw [hget] at hget'; exact Option.some.inj hget'
      obtain ⟨f, rfl⟩ : ∃ f, fuel = f + 1 := ⟨fuel - 1, by omega⟩
      have hnl : ¬(nd.type = PGTYPE_TABLE_LEAF) := by
        rw [htype]; decide
      have hgetnp : chidb_Btree_getNodeByPage bt nd.npage = some nd := by
        rw [hnp]; exact hget
      have hIntWf : IntWf bt h nd lo hi ess esR :=
        ⟨hgetnp, htype, hnc, hlen, hchain, hbnd, hkids, hR⟩
      have hanc : Anc bt H anc (h + 1) nd.npage lo hi restUp := by
        rw [hnp]; exact ha
      cases hcs : nd.cells with
      | nil =>
        have hnc0 : nd.n_cells = 0 := by rw [hnc, hcs]; rfl
        have hess : ess = [] := by
          have hk := hkids
          rw [hcs] at hk
          exact hk
        obtain ⟨ndR, hgetR, hnpR⟩ := TTree_node hR
        have hbr : branchData nd lo hi 0 = (nd.right_page, lastBound lo nd.cells, hi) := by
          rw [branchData, if_neg]
          rw [hcs]
          simp
        have hra : restAfter ess esR 0 nd.n_cells = [] := by
          rw [restAfter, if_neg]
          rw [hnc0]
          simp
        have ha' : Anc bt H (⟨nd, 0⟩ :: anc) h nd.right_page (lastBound lo nd.cells) hi restUp :=
          ⟨lo, hi, ess, esR, restUp, hIntWf, hanc, Nat.zero_le _, hbr, by rw [hra]; rfl⟩
        obtain ⟨c', hdown, hpos, hcell⟩ := ih f nd.right_page (lastBound lo nd.cells) hi esR
          ndR (⟨nd, 0⟩ :: anc) restUp
          { c with trail := ⟨ndR, 0⟩ :: ⟨nd, 0⟩ :: anc } hR hgetR ha' (by omega) rfl
        have hesR : es = esR := by rw [hes, hess]; simp
        refine ⟨c', ?_, by rw [hesR]; exact hpos, by rw [hesR]; exact hcell⟩
        rw [← hdown]
        simp only [chidb_dbm_cursor_table_down, htrail]
        rw [if_neg hnl]
        rw [hnc0]
        simp only [Nat.lt_irrefl, if_false, chidb_dbm_trail_node_new, hgetR,
          Option.map_some']
        rfl
      | cons c0 cs =>
        have hkids' := hkids
        rw [hcs] at hkids'
        obtain ⟨ch, k, es1, ess', hc0, hessEq, hT, hrest⟩ := hkids'
        have hlt : (0 : Nat) < nd.cells.length := by rw [hcs]; simp
        have hnc0 : 0 < nd.n_cells := by rw [hnc]; exact hlt
        obtain ⟨ndc, hgetc, hnpc⟩ := TTree_node hT
        have hchp : cellChildPage (nd.cells.getD 0 default) = ch := by
          rw [hcs, List.getD_cons_zero, hc0]; rfl
        have hk0 : cellKey (nd.cells.getD 0 default) = k := by
          rw [hcs, List.getD_cons_zero, hc0]; rfl
        have hb0 : boundAt lo nd.cells 0 = lo := by simp [boundAt]
        have hbr : branchData nd lo hi 0 = (ch, lo, some k) := by
          rw [branchData, if_pos hlt, hchp, hb0, hk0]
        have hra : restAfter ess esR 0 nd.n_cells = ess'.flatten ++ esR := by
          rw [restAfter, if_pos hnc0, hessEq]
          simp
        have ha' : Anc bt H (⟨nd, 0⟩ :: anc) h ch lo (some k)
            ((ess'.flatten ++ esR) ++ restUp) :=
          ⟨lo, hi, ess, esR, restUp, hIntWf, hanc, Nat.zero_le _, hbr, by rw [hra]⟩
        obtain ⟨c', hdown, hpos, hcell⟩ := ih f ch lo (some k) es1 ndc (⟨nd, 0⟩ :: anc)
          ((ess'.flatten ++ esR) ++ restUp)
          { c with trail := ⟨ndc, 0⟩ :: ⟨nd, 0⟩ :: anc } hT hgetc ha' (by omega) rfl
        have hes1ne : es1 ≠ [] := TTree_ne_nil hT
        refine ⟨c', ?_, ?_, ?_⟩
        · rw [← hdown]
          simp only [chidb_dbm_cursor_table_down, htrail]
          rw [if_neg hnl]
          simp only [if_pos hnc0, hchp, chidb_dbm_trail_node_new, hgetc, Option.map_some']
          rfl
        · have heq : es.tail ++ restUp = es1.tail ++ ((ess'.flatten ++ esR) ++ restUp) := by
            rw [hes, hessEq]
            simp only [List.flatten_cons, List.append_assoc]
            rw [tail_append_ne hes1ne]
            simp [List.append_assoc]
          rw [heq]
          exact hpos
        · rw [hes, hessEq]
          simp only [List.flatten_cons, List.append_assoc]
          rw [headI_append hes1ne]
          exact hcell

/-- One descent step from an internal trail entry positioned on branch `j`:
`chidb_dbm_cursor_table_down` enters the branch's subtree and lands on its
first entry. -/
theorem down_branch {bt : BTree} {H h fuel : Nat} {nd : BTreeNode}
    {lo0 hi0 : Option Nat} {ess : List (List BTreeCell)} {esR restUp : List BTreeCell}
    {anc : List TrailNode} {j : Nat} {c : Cursor}
    (hw : IntWf bt h nd lo0 hi0 ess esR)
    (hanc : Anc bt H anc (h + 1) nd.npage lo0 hi0 restUp)
    (hj : j ≤ nd.n_cells)
    (htrail : c.trail = ⟨nd, j⟩ :: anc)
    (hfuel : h + 1 < fuel) :
    ∃ c',
      chidb_dbm_cursor_table_down bt fuel c true = (.ok, c') ∧
      Pos bt H c'
        ((if j < nd.n_cells then ess.getD j [] else esR).tail ++
          (restAfter ess esR j nd.n_cells ++ restUp)) ∧
      c'.cell = (if j < nd.n_cells then ess.getD j [] else esR).headI := by
  obtain ⟨hget, htype, hnc, hlen, hchain, hbnd, hkids, hR⟩ := hw
  obtain ⟨f, rfl⟩ : ∃ f, fuel = f + 1 := ⟨fuel - 1, by omega⟩
  have hnl : ¬(nd.type = PGTYPE_TABLE_LEAF) := by rw [htype]; decide
  by_cases hjlt : j < nd.n_cells
  · have hjl : j < nd.cells.length := by rw [← hnc]; exact hjlt
    obtain ⟨ch, k, hcell, hT⟩ := TKids_idx hkids j hjl
    obtain ⟨ndc, hgetc, hnpc⟩ := TTree_node hT
    have hchp : cellChildPage (nd.cells.getD j default) = ch := by rw [hcell]; rfl
    have hk0 : cellKey (nd.cells.getD j default) = k := by rw [hcell]; rfl
    have hbr : branchData nd lo0 hi0 j = (ch, boundAt lo0 nd.cells j, some k) := by
      rw [branchData, if_pos hjl, hchp, hk0]
    have ha' : Anc bt H (⟨nd, j⟩ :: anc) h ch (boundAt lo0 nd.cells j) (some k)
        (restAfter ess esR j nd.n_cells ++ restUp) :=
      ⟨lo0, hi0, ess, esR, restUp, ⟨hget, htype, hnc, hlen, hchain, hbnd, hkids, hR⟩,
        hanc, hj, hbr, rfl⟩
    obtain ⟨c', hdown, hpos, hcell'⟩ := down_main h f ch (boundAt lo0 nd.cells j) (some k)
      (ess.getD j []) ndc (⟨nd, j⟩ :: anc) (restAfter ess esR j nd.n_cells ++ restUp)
      { c with trail := ⟨ndc, 0⟩ :: ⟨nd, j⟩ :: anc } hT hgetc ha' (by omega) rfl
    refine ⟨c', ?_, by rw [if_pos hjlt]; exact hpos, by rw [if_pos hjlt]; exact hcell'⟩
    rw [← hdown]
    simp only [chidb_dbm_cursor_table_down, htrail]
    rw [if_neg hnl]
    simp only [if_pos hjlt, hchp, chidb_dbm_trail_node_new, hgetc, Option.map_some']
    rfl
  · have hjeq : j = nd.n_cells := by omega
    obtain ⟨ndR, hgetR, hnpR⟩ := TTree_node hR
    have hbr : branchData nd lo0 hi0 j = (nd.right_page, lastBound lo0 nd.cells, hi0) := by
      rw [branchData, if_neg]
      rw [← hnc]
      exact hjlt
    have hra : restAfter ess esR j nd.n_cells = [] := by
      rw [restAfter, if_neg hjlt]
    have ha' : Anc bt H (⟨nd, j⟩ :: anc) h nd.right_page (lastBound lo0 nd.cells) hi0
        (restAfter ess esR j nd.n_cells ++ restUp) :=
      ⟨lo0, hi0, ess, esR, restUp, ⟨hget, htype, hnc, hlen, hchain, hbnd, hkids, hR⟩,
        hanc, hj, hbr, rfl⟩
    obtain ⟨c', hdown, hpos, hcell'⟩ := down_main h f nd.right_page (lastBound lo0 nd.cells)
      hi0 esR ndR (⟨nd, j⟩ :: anc) (restAfter ess esR j nd.n_cells ++ restUp)
      { c with trail := ⟨ndR, 0⟩ :: ⟨nd, j⟩ :: anc } hR hgetR ha' (by omega) rfl
    refine ⟨c', ?_, by rw [if_neg hjlt]; exact hpos, by rw [if_neg hjlt]; exact hcell'⟩
    rw [← hdown]
    simp only [chidb_dbm_cursor_table_down, htrail]
    rw [if_neg hnl]
    simp only [if_neg hjlt, chidb_dbm_trail_node_new, hgetR, Option.map_some']
    rfl

/-- `chidb_dbm_cursor_table_up` on a valid ancestor stack: if entries
remain, it lands on the next one; if none remain, it climbs off the root
and returns `CHIDB_CANTMOVE`. -/
theorem up_spec {bt : BTree} {H : Nat} :
    ∀ (anc : List TrailNode) (h p : Nat) (lo hi : Option Nat)
      (restUp : List BTreeCell) (fuel : Nat) (c : Cursor),
      Anc bt H anc h p lo hi restUp →
      anc.length + H + 2 ≤ fuel →
      c.trail = anc →
      (restUp = [] → ∃ c'', chidb_dbm_cursor_table_up bt fuel c true = (.ecantmove, c'')) ∧
      (∀ e rest', restUp = e :: rest' →
        ∃ c', chidb_dbm_cursor_table_up bt fuel c true = (.ok, c') ∧
          Pos bt H c' rest' ∧ c'.cell = e) := by
  intro anc
  induction anc with
  | nil =>
    intro h p lo hi restUp fuel c ha hfuel htrail
    obtain ⟨hH, hlo, hhi, hrest⟩ := ha
    obtain ⟨f, rfl⟩ : ∃ f, fuel = f + 1 := ⟨fuel - 1, by omega⟩
    constructor
    · intro _
      exact ⟨c, by simp only [chidb_dbm_cursor_table_up, htrail]⟩
    · intro e rest' habs
      rw [hrest] at habs
      exact absurd habs (by simp)
  | cons tn anc ih =>
    intro h p lo hi restUp fuel c ha hfuel htrail
    obtain ⟨lo0, hi0, ess, esR, restUp', hw, hanc, hle, hbr, hrestEq⟩ := ha
    obtain ⟨f, rfl⟩ : ∃ f, fuel = f + 1 := ⟨fuel - 1, by omega⟩
    have hlenA := Anc_length hanc
    have hesslen : ess.length = tn.node.n_cells := by
      rw [TKids_length hw.2.2.2.2.2.2.1, ← hw.2.2.1]
    by_cases hlt : tn.cell_num < tn.node.n_cells
    · -- descend into branch cell_num + 1
      have hstep := @restAfter_step ess esR tn.cell_num tn.node.n_cells hesslen hlt
      have hne : (if tn.cell_num + 1 < tn.node.n_cells then ess.getD (tn.cell_num + 1) []
          else esR) ≠ [] := by
        by_cases h1 : tn.cell_num + 1 < tn.node.n_cells
        · rw [if_pos h1]
          have h1l : tn.cell_num + 1 < tn.node.cells.length := by
            rw [← hw.2.2.1]; exact h1
          obtain ⟨ch, k, _, hT⟩ := TKids_idx hw.2.2.2.2.2.2.1 (tn.cell_num + 1) h1l
          exact TTree_ne_nil hT
        · rw [if_neg h1]
          exact TTree_ne_nil hw.2.2.2.2.2.2.2
      have hupstep : chidb_dbm_cursor_table_up bt (f + 1) c true =
          chidb_dbm_cursor_table_down bt f
            { c with trail := ⟨tn.node, tn.cell_num + 1⟩ :: anc } true := by
        simp only [chidb_dbm_cursor_table_up, htrail]
        rw [if_pos]
        · rfl
        · simp only [if_true]
          omega
      have hfuel' : anc.length + 1 + H + 2 ≤ f + 1 := by simpa using hfuel
      obtain ⟨c', hdown, hpos, hcell⟩ := @down_branch bt H h f tn.node lo0 hi0 ess esR
        restUp' anc (tn.cell_num + 1)
        { c with trail := ⟨tn.node, tn.cell_num + 1⟩ :: anc } hw hanc
        (by omega) rfl (by omega)
      constructor
      · intro habs
        rw [hrestEq, hstep] at habs
        obtain ⟨h1, _⟩ := List.append_eq_nil.mp habs
        obtain ⟨h2, _⟩ := List.append_eq_nil.mp h1
        exact absurd h2 hne
      · intro e rest' hrest'
        rw [hrestEq, hstep] at hrest'
        cases hcj : (if tn.cell_num + 1 < tn.node.n_cells then ess.getD (tn.cell_num + 1) []
            else esR) with
        | nil => rw [hcj] at hne; exact absurd rfl hne
        | cons y ys =>
          rw [hcj] at hrest' hpos hcell
          simp only [List.cons_append, List.cons.injEq] at hrest'
          obtain ⟨rfl, hrest''⟩ := hrest'
          refine ⟨c', by rw [hupstep]; exact hdown, ?_, ?_⟩
          · rw [← hrest'']
            simpa [List.append_assoc] using hpos
          · simpa using hcell
    · -- cell_num = n_cells: pop and recurse upward
      have heq : tn.cell_num = tn.node.n_cells := by omega
      have hra : restAfter ess esR tn.cell_num tn.node.n_cells = [] := by
        rw [restAfter, if_neg hlt]
      have hrest0 : restUp = restUp' := by rw [hrestEq, hra]; rfl
      have hupstep : chidb_dbm_cursor_table_up bt (f + 1) c true =
          chidb_dbm_cursor_table_up bt f { c with trail := anc } true := by
        simp only [chidb_dbm_cursor_table_up, htrail]
        rw [if_neg]
        simp only [if_true]
        omega
      have := ih (h + 1) tn.node.npage lo0 hi0 restUp' f { c with trail := anc }
        hanc (by simp at hfuel ⊢; omega) rfl
      rw [hrest0]
      constructor
      · intro habs
        obtain ⟨c'', hc''⟩ := this.1 habs
        exact ⟨c'', by rw [hupstep]; exact hc''⟩
      · intro e rest' hrest'
        obtain ⟨c', h1, h2, h3⟩ := this.2 e rest' hrest'
        exact ⟨c', by rw [hupstep]; exact h1, h2, h3⟩

/-- `chidb_dbm_cursor_table_move` forward from a valid position: if leaf
cells remain it returns OK with the next one (in trail order) stored in
`cursor.cell`; if none remain it returns `CHIDB_CANTMOVE`. -/
theorem move_spec {bt : BTree} {H : Nat} {c : Cursor} {rest : List BTreeCell}
    {fuel : Nat} (hpos : Pos bt H c rest) (hfuel : 2 * H + 3 ≤ fuel) :
    (rest = [] → ∃ c'', chidb_dbm_cursor_table_move bt fuel c true = (.ecantmove, c'')) ∧
    (∀ e rest', rest = e :: rest' →
      ∃ c', chidb_dbm_cursor_table_move bt fuel c true = (.ok, c') ∧
        Pos bt H c' rest' ∧ c'.cell = e) := by
  obtain ⟨nd, i, anc, h, lo, hi, restUp, htrail, hget, htype, hnc, hlen, hne, hilt, hanc,
    hrest⟩ := hpos
  have hlp : 0 < nd.cells.length := List.length_pos.mpr hne
  have hn1 : 1 ≤ nd.n_cells := by omega
  have hn2 : nd.n_cells ≤ 65535 := by rw [hnc]; omega
  have hsub : sub16 nd.n_cells 1 = nd.n_cells - 1 := sub16_one hn1 hn2
  by_cases hend : i = nd.n_cells - 1
  · have hup : chidb_dbm_cursor_table_move bt fuel c true =
        chidb_dbm_cursor_table_up bt fuel { c with trail := anc } true := by
      simp only [chidb_dbm_cursor_table_move, htrail, if_true, hsub]
      rw [if_pos hend]
    have hrest2 : rest = restUp := by
      rw [hrest]
      have hd : nd.cells.drop (i + 1) = [] := by
        apply List.drop_eq_nil_of_le
        rw [← hnc]
        omega
      rw [hd]
      rfl
    have hAl := Anc_length hanc
    have hspec := up_spec anc h nd.npage lo hi restUp fuel { c with trail := anc } hanc
      (by omega) rfl
    rw [hrest2]
    constructor
    · intro hz
      obtain ⟨c'', hc''⟩ := hspec.1 hz
      exact ⟨c'', by rw [hup]; exact hc''⟩
    · intro e rest' hz
      obtain ⟨c', h1, h2, h3⟩ := hspec.2 e rest' hz
      exact ⟨c', by rw [hup]; exact h1, h2, h3⟩
  · have hi1 : i + 1 < nd.n_cells := by omega
    have hi1l : i + 1 < nd.cells.length := by rw [← hnc]; exact hi1
    have hguard : ¬(nd.n_cells < i + 1) := by omega
    have hdropEq : nd.cells.drop (i + 1) =
        nd.cells.getD (i + 1) default :: nd.cells.drop (i + 2) := by
      rw [List.drop_eq_getElem_cons hi1l, List.getD_eq_getElem _ _ hi1l]
    have hmv : chidb_dbm_cursor_table_move bt fuel c true =
        (.ok, { c with trail := ⟨nd, i + 1⟩ :: anc,
                       cell := nd.cells.getD (i + 1) default }) := by
      simp only [chidb_dbm_cursor_table_move, htrail, if_true, hsub]
      rw [if_neg hend]
      simp only [chidb_Btree_getCell, if_neg hguard]
    constructor
    · intro hz
      rw [hrest, hdropEq] at hz
      exact absurd hz (by simp)
    · intro e rest' hz
      rw [hrest, hdropEq] at hz
      simp only [List.cons_append, List.cons.injEq] at hz
      obtain ⟨rfl, hz2⟩ := hz
      refine ⟨_, hmv, ?_, rfl⟩
      exact ⟨nd, i + 1, anc, h, lo, hi, restUp, rfl, hget, htype, hnc, hlen, hne, hi1,
        hanc, by rw [← hz2]⟩

/-- `chidb_dbm_cursor_rewind` on a well-formed nonempty table B-Tree:
returns OK (it returns OK unconditionally), rebuilds the trail down to
the leftmost leaf, and stores the tree's first entry in `cursor.cell`. -/
theorem rewind_spec {bt : BTree} {H : Nat} {nroot fuel : Nat} {es : List BTreeCell}
    {c : Cursor} (ht : TTree bt true H nroot none none es) (hfuel : H < fuel)
    (hroot : c.root_page = nroot) :
    ∃ c', chidb_dbm_cursor_rewind bt fuel c = (.ok, c') ∧
      Pos bt H c' es.tail ∧ c'.cell = es.headI := by
  obtain ⟨nd, hget, hnp⟩ := TTree_node ht
  have ha : Anc bt H ([] : List TrailNode) H nroot none none [] :=
    ⟨Nat.le_refl H, rfl, rfl, rfl⟩
  obtain ⟨c', hdown, hpos, hcell⟩ := down_main H fuel nroot none none es nd []
    [] { c with trail := [⟨nd, 0⟩] } ht hget ha hfuel rfl
  rw [hroot] at hdown
  refine ⟨c', ?_, by simpa using hpos, hcell⟩
  simp only [chidb_dbm_cursor_rewind, chidb_dbm_trail_node_new, hroot, hget,
    Option.map_some']
  rw [hdown]

/-- Iterating `chidb_dbm_cursor_table_move` from a valid position visits
exactly the remaining entries and then reports `CHIDB_CANTMOVE`. -/
theorem collect_spec {bt : BTree} {H : Nat} :
    ∀ (rest : List BTreeCell) (c : Cursor) (fuel : Nat),
      Pos bt H c rest → 2 * H + 3 ≤ fuel →
      collectMoves bt fuel (rest.length + 1) c = (rest, .ecantmove) := by
  intro rest
  induction rest with
  | nil =>
    intro c fuel hpos hfuel
    obtain ⟨c'', hc''⟩ := (move_spec hpos hfuel).1 rfl
    simp only [List.length_nil, collectMoves, hc'']
  | cons e rest' ih =>
    intro c fuel hpos hfuel
    obtain ⟨c', h1, h2, h3⟩ := (move_spec hpos hfuel).2 e rest' rfl
    have hrec := ih c' fuel h2 hfuel
    have hstep : collectMoves bt fuel (rest'.length + 1 + 1) c =
        (c'.cell :: (collectMoves bt fuel (rest'.length + 1) c').1,
         (collectMoves bt fuel (rest'.length + 1) c').2) := by
      conv_lhs => rw [collectMoves]
      rw [h1]
    simp only [List.length_cons]
    rw [hstep, hrec, h3]

theorem insertAt_length_self : ∀ (l : List BTreeCell) (c : BTreeCell),
    insertAt l l.length c = l ++ [c] := by
  intro l
  induction l with
  | nil => intro c; rfl
  | cons x xs ih => intro c; simp only [List.length_cons, insertAt, ih, List.cons_append]

theorem insertAt_getD : ∀ (l : List BTreeCell) (i : Nat) (a : BTreeCell),
    i ≤ l.length → (insertAt l i a).getD i default = a := by
  intro l
  induction l with
  | nil =>
    intro i a hi
    have h0 : i = 0 := by simpa using hi
    subst h0
    rfl
  | cons x xs ih =>
    intro i a hi
    cases i with
    | zero => rfl
    | succ j =>
      simp only [insertAt, List.getD_cons_succ]
      exact ih j a (by simpa using hi)

theorem cellKey_storeForm (c : BTreeCell) : cellKey (storeForm c) = cellKey c := by
  cases c <;> rfl

theorem getNode_bounds {bt : BTree} {p : Nat} {nd : BTreeNode}
    (h : chidb_Btree_getNodeByPage bt p = some nd) :
    1 ≤ p ∧ p ≤ bt.n_pages ∧ bt.pages p = some nd := by
  by_cases hc : 1 ≤ p ∧ p ≤ bt.n_pages
  · refine ⟨hc.1, hc.2, ?_⟩
    rw [chidb_Btree_getNodeByPage, if_pos hc] at h
    exact h
  · rw [chidb_Btree_getNodeByPage, if_neg hc] at h
    exact absurd h (by simp)

/-- Effect of the get/insert copy loops (`insertSeq`) on a node whose cell
list is in sync with its cell count: cells are appended in order (in their
serialized `storeForm`), the count grows accordingly, and type, page
number and right-page are untouched. -/
theorem insertSeq_spec : ∀ (cs : List BTreeCell) (dst : BTreeNode),
    dst.n_cells = dst.cells.length →
    dst.cells.length + cs.length < 65536 →
    (insertSeq dst dst.cells.length cs).cells = dst.cells ++ cs.map storeForm ∧
    (insertSeq dst dst.cells.length cs).n_cells = dst.cells.length + cs.length ∧
    (insertSeq dst dst.cells.length cs).type = dst.type ∧
    (insertSeq dst dst.cells.length cs).npage = dst.npage ∧
    (insertSeq dst dst.cells.length cs).right_page = dst.right_page := by
  intro cs
  induction cs with
  | nil =>
    intro dst hsync hlt
    simp [insertSeq, hsync]
  | cons c cs ih =>
    intro dst hsync hlt
    set dst1 := (chidb_Btree_insertCell dst dst.cells.length c).2 with hdst1
    have hcells1 : dst1.cells = dst.cells ++ [storeForm c] := by
      rw [hdst1]
      simp only [chidb_Btree_insertCell]
      exact insertAt_length_self dst.cells (storeForm c)
    have hn1 : dst1.n_cells = dst.cells.length + 1 := by
      rw [hdst1]
      simp only [chidb_Btree_insertCell, add16, hsync]
      simp only [List.length_cons] at hlt
      omega
    have hsync1 : dst1.n_cells = dst1.cells.length := by
      rw [hn1, hcells1]
      simp
    have hlen1 : dst1.cells.length = dst.cells.length + 1 := by rw [hcells1]; simp
    have hlt1 : dst1.cells.length + cs.length < 65536 := by
      rw [hlen1]
      simp only [List.length_cons] at hlt
      omega
    have := ih dst1 hsync1 hlt1
    rw [hlen1] at this
    have hseq : insertSeq dst dst.cells.length (c :: cs) =
        insertSeq dst1 (dst.cells.length + 1) cs := by
      rw [insertSeq, ← hdst1]
    rw [hseq]
    refine ⟨?_, ?_, ?_, ?_, ?_⟩
    · rw [this.1, hcells1]
      simp
    · rw [this.2.1]
      simp only [List.length_cons]
      omega
    · rw [this.2.2.1, hdst1]
      rfl
    · rw [this.2.2.2.1, hdst1]
      rfl
    · rw [this.2.2.2.2, hdst1]
      rfl

theorem take_keys_lt {l : List BTreeCell} {j : Nat}
    (hchain : List.Chain' (· < ·) (cellKeys l)) (hj : j < l.length) :
    ∀ c ∈ l.take j, cellKey c < cellKey (l.getD j default) := by
  intro c hc
  obtain ⟨i, hi, hieq⟩ := List.mem_iff_getElem.mp hc
  have hil : i < l.length := by
    have := hi
    simp only [List.length_take] at this
    omega
  have hij : i < j := by
    have := hi
    simp only [List.length_take] at this
    omega
  have hp := keys_pairwise hchain
  rw [List.pairwise_iff_get] at hp
  have hkl : (cellKeys l).length = l.length := by simp [cellKeys]
  have := hp ⟨i, by omega⟩ ⟨j, by omega⟩ (by simpa using hij)
  simp only [List.get_eq_getElem, cellKeys, List.getElem_map] at this
  rw [List.getD_eq_getElem _ _ hj]
  rw [← hieq]
  simpa [List.getElem_take] using this

theorem drop_keys_ge {l : List BTreeCell} {j : Nat}
    (hchain : List.Chain' (· < ·) (cellKeys l)) (hj : j < l.length) :
    ∀ c ∈ l.drop j, cellKey (l.getD j default) ≤ cellKey c := by
  intro c hc
  obtain ⟨i, hi, hieq⟩ := List.mem_iff_getElem.mp hc
  have hlen : (l.drop j).length = l.length - j := by simp
  have hji : j + i < l.length := by omega
  have hdg : (l.drop j)[i] = l[j + i] := by
    simp [List.getElem_drop]
  rw [List.getD_eq_getElem _ _ hj, ← hieq, hdg]
  cases Nat.eq_zero_or_pos i with
  | inl h0 => subst h0; simp
  | inr hpos =>
    have hp := keys_pairwise hchain
    rw [List.pairwise_iff_get] at hp
    have := hp ⟨j, by simp [cellKeys]; omega⟩ ⟨j + i, by simp [cellKeys]; omega⟩
      (by simp; omega)
    simp only [List.get_eq_getElem, cellKeys, List.getElem_map] at this
    exact Nat.le_of_lt this

theorem initNodeRecord_npage (bt : BTree) (p ty : Nat) : (initNodeRecord bt p ty).npage = p := rfl

theorem initNodeRecord_type (bt : BTree) (p ty : Nat) : (initNodeRecord bt p ty).type = ty := rfl

theorem initNodeRecord_cells (bt : BTree) (p ty : Nat) : (initNodeRecord bt p ty).cells = [] := rfl

theorem initNodeRecord_n_cells (bt : BTree) (p ty : Nat) : (initNodeRecord bt p ty).n_cells = 0 := rfl

theorem initEmpty_n_pages (bt : BTree) (p ty : Nat) :
    (chidb_Btree_initEmptyNode bt p ty).n_pages = bt.n_pages := rfl

theorem initEmpty_page_size (bt : BTree) (p ty : Nat) :
    (chidb_Btree_initEmptyNode bt p ty).page_size = bt.page_size := rfl

theorem initEmpty_pages_self (bt : BTree) (p ty : Nat) :
    (chidb_Btree_initEmptyNode bt p ty).pages p = some (initNodeRecord bt p ty) := by
  simp [chidb_Btree_initEmptyNode, chidb_Btree_writeNode, initNodeRecord_npage]

theorem initEmpty_pages_other (bt : BTree) (p ty q : Nat) (h : q ≠ p) :
    (chidb_Btree_initEmptyNode bt p ty).pages q = bt.pages q := by
  simp [chidb_Btree_initEmptyNode, chidb_Btree_writeNode, initNodeRecord_npage, h]

theorem getNode_initEmpty_self (bt : BTree) (p ty : Nat) (h1 : 1 ≤ p) (h2 : p ≤ bt.n_pages) :
    chidb_Btree_getNodeByPage (chidb_Btree_initEmptyNode bt p ty) p =
      some (initNodeRecord bt p ty) := by
  rw [chidb_Btree_getNodeByPage, if_pos ⟨h1, by rw [initEmpty_n_pages]; exact h2⟩]
  exact initEmpty_pages_self bt p ty

theorem getNode_initEmpty_other (bt : BTree) (p ty q : Nat) (h : q ≠ p) :
    chidb_Btree_getNodeByPage (chidb_Btree_initEmptyNode bt p ty) q =
      chidb_Btree_getNodeByPage bt q := by
  rw [chidb_Btree_getNodeByPage, chidb_Btree_getNodeByPage, initEmpty_n_pages]
  by_cases hc : 1 ≤ q ∧ q ≤ bt.n_pages
  · rw [if_pos hc, if_pos hc]
    exact initEmpty_pages_other bt p ty q h
  · rw [if_neg hc, if_neg hc]

theorem pages_writeNode (bt : BTree) (nd : BTreeNode) (q : Nat) :
    (chidb_Btree_writeNode bt nd).pages q =
      if q = nd.npage then some nd else bt.pages q := rfl

theorem writeNode_n_pages (bt : BTree) (nd : BTreeNode) :
    (chidb_Btree_writeNode bt nd).n_pages = bt.n_pages := rfl

theorem insertCell_npage (b : BTreeNode) (n : Nat) (c : BTreeCell) :
    (chidb_Btree_insertCell b n c).2.npage = b.npage := rfl

theorem insertCell_type (b : BTreeNode) (n : Nat) (c : BTreeCell) :
    (chidb_Btree_insertCell b n c).2.type = b.type := rfl

theorem insertCell_cells (b : BTreeNode) (n : Nat) (c : BTreeCell) :
    (chidb_Btree_insertCell b n c).2.cells = insertAt b.cells n (storeForm c) := rfl

theorem insertSeq_from_empty (cs : List BTreeCell) (dst : BTreeNode)
    (hc : dst.cells = []) (hn : dst.n_cells = 0) (hlen : cs.length < 65536) :
    (insertSeq dst 0 cs).cells = cs.map storeForm ∧
    (insertSeq dst 0 cs).n_cells = cs.length ∧
    (insertSeq dst 0 cs).type = dst.type ∧
    (insertSeq dst 0 cs).npage = dst.npage ∧
    (insertSeq dst 0 cs).right_page = dst.right_page := by
  have h := insertSeq_spec cs dst (by rw [hn, hc]; rfl) (by rw [hc]; simpa)
  rw [hc] at h
  simpa using h

theorem insertSeq_npage : ∀ (cs : List BTreeCell) (dst : BTreeNode) (i : Nat),
    (insertSeq dst i cs).npage = dst.npage := by
  intro cs
  induction cs with
  | nil => intro dst i; rfl
  | cons c cs ih => intro dst i; rw [insertSeq, ih, insertCell_npage]

theorem insertAt_eq_append (l : List BTreeCell) (i : Nat) (a : BTreeCell)
    (h : i = l.length) : insertAt l i a = l ++ [a] := by
  subst h; exact insertAt_length_self l a

theorem split_run_leaf (bt : BTree) (npage_parent npage_child parent_ncell : Nat)
    (parent child : BTreeNode)
    (hgp : chidb_Btree_getNodeByPage bt npage_parent = some parent)
    (hgc : chidb_Btree_getNodeByPage bt npage_child = some child)
    (hpp : parent.npage = npage_parent)
    (hne : npage_parent ≠ npage_child)
    (hcnc : child.n_cells = child.cells.length)
    (hn1 : 1 ≤ child.n_cells)
    (hnb : child.n_cells < 30000)
    (hleaf : child.type = PGTYPE_TABLE_LEAF) :
    ∃ (bt' : BTree) (sib chd par : BTreeNode),
      chidb_Btree_split bt npage_parent npage_child parent_ncell =
        (.ok, bt', bt.n_pages + 1) ∧
      bt'.pages (bt.n_pages + 1) = some sib ∧
      bt'.pages npage_child = some chd ∧
      bt'.pages npage_parent = some par ∧
      sib.npage = bt.n_pages + 1 ∧
      sib.cells = (child.cells.take (child.n_cells / 2)).map storeForm ++
        [storeForm (child.cells.getD (child.n_cells / 2) default)] ∧
      chd.cells = ((child.cells.drop (child.n_cells / 2 + 1)).map storeForm).map storeForm ∧
      par.cells = insertAt parent.cells parent_ncell (storeForm
        (if parent.type = PGTYPE_TABLE_INTERNAL then
          BTreeCell.tableInternal (bt.n_pages + 1)
            (cellKey (child.cells.getD (child.n_cells / 2) default))
        else if parent.type = PGTYPE_INDEX_INTERNAL then
          BTreeCell.indexInternal (bt.n_pages + 1)
            (cellKey (child.cells.getD (child.n_cells / 2) default))
            (cellKeyPk (child.cells.getD (child.n_cells / 2) default))
        else child.cells.getD (child.n_cells / 2) default)) := by
  obtain ⟨hb1a, hb1b, hb1c⟩ := getNode_bounds hgp
  obtain ⟨hb2a, hb2b, hb2c⟩ := getNode_bounds hgc
  have hlf1 : (child.type = PGTYPE_TABLE_LEAF) = True := by simp [hleaf]
  have hlf2 : (child.type = PGTYPE_TABLE_INTERNAL) = False := by
    simp [hleaf, PGTYPE_TABLE_LEAF, PGTYPE_TABLE_INTERNAL]
  have hlf3 : (child.type = PGTYPE_INDEX_INTERNAL) = False := by
    simp [hleaf, PGTYPE_TABLE_LEAF, PGTYPE_INDEX_INTERNAL]
  have halloc1 : chidb_Btree_newNode bt child.type =
      ((chidb_Btree_initEmptyNode { bt with n_pages := bt.n_pages + 1 } (bt.n_pages + 1) child.type), bt.n_pages + 1) := rfl
  have hg3 : chidb_Btree_getNodeByPage (chidb_Btree_initEmptyNode { bt with n_pages := bt.n_pages + 1 } (bt.n_pages + 1) child.type) (bt.n_pages + 1) =
      some (initNodeRecord { bt with n_pages := bt.n_pages + 1 } (bt.n_pages + 1) child.type) :=
    getNode_initEmpty_self _ _ _ (by omega) (by rfl)
  have halloc2 : chidb_Btree_newNode (chidb_Btree_initEmptyNode { bt with n_pages := bt.n_pages + 1 } (bt.n_pages + 1) child.type) child.type =
      ((chidb_Btree_initEmptyNode { (chidb_Btree_initEmptyNode { bt with n_pages := bt.n_pages + 1 } (bt.n_pages + 1) child.type) with n_pages := bt.n_pages + 2 } (bt.n_pages + 2) child.type), bt.n_pages + 2) := rfl
  have hg4 : chidb_Btree_getNodeByPage (chidb_Btree_initEmptyNode { (chidb_Btree_initEmptyNode { bt with n_pages := bt.n_pages + 1 } (bt.n_pages + 1) child.type) with n_pages := bt.n_pages + 2 } (bt.n_pages + 2) child.type) (bt.n_pages + 2) =
      some (initNodeRecord { (chidb_Btree_initEmptyNode { bt with n_pages := bt.n_pages + 1 } (bt.n_pages + 1) child.type) with n_pages := bt.n_pages + 2 } (bt.n_pages + 2) child.type) :=
    getNode_initEmpty_self _ _ _ (by omega) (by rfl)
  have hmed : ¬(child.n_cells < child.n_cells / 2) := by omega
  have hcut : cellsUpTo child = child.cells := cellsUpTo_eq hcnc
  have hcle : npage_child ≤ bt.n_pages + 2 := by omega
  have hcge : 1 ≤ npage_child := hb2a
  have hrun : chidb_Btree_split bt npage_parent npage_child parent_ncell =
      (.ok, (chidb_Btree_writeNode (chidb_Btree_writeNode (chidb_Btree_writeNode
      { chidb_Btree_initEmptyNode (chidb_Btree_initEmptyNode { (chidb_Btree_initEmptyNode { bt with n_pages := bt.n_pages + 1 } (bt.n_pages + 1) child.type) with n_pages := bt.n_pages + 2 } (bt.n_pages + 2) child.type) npage_child (insertSeq (initNodeRecord { (chidb_Btree_initEmptyNode { bt with n_pages := bt.n_pages + 1 } (bt.n_pages + 1) child.type) with n_pages := bt.n_pages + 2 } (bt.n_pages + 2) child.type) 0 (child.cells.drop (child.n_cells / 2 + 1))).type with n_pages := bt.n_pages + 2 - 1 }
      (chidb_Btree_insertCell parent parent_ncell
        (if parent.type = PGTYPE_TABLE_INTERNAL then
          BTreeCell.tableInternal (bt.n_pages + 1) (cellKey (child.cells.getD (child.n_cells / 2) default))
        else if parent.type = PGTYPE_INDEX_INTERNAL then
          BTreeCell.indexInternal (bt.n_pages + 1) (cellKey (child.cells.getD (child.n_cells / 2) default)) (cellKeyPk (child.cells.getD (child.n_cells / 2) default))
        else (child.cells.getD (child.n_cells / 2) default))).2)
      (insertSeq { (initNodeRecord (chidb_Btree_initEmptyNode { (chidb_Btree_initEmptyNode { bt with n_pages := bt.n_pages + 1 } (bt.n_pages + 1) child.type) with n_pages := bt.n_pages + 2 } (bt.n_pages + 2) child.type) npage_child (insertSeq (initNodeRecord { (chidb_Btree_initEmptyNode { bt with n_pages := bt.n_pages + 1 } (bt.n_pages + 1) child.type) with n_pages := bt.n_pages + 2 } (bt.n_pages + 2) child.type) 0 (child.cells.drop (child.n_cells / 2 + 1))).type) with right_page := child.right_page } 0 (cellsUpTo (insertSeq (initNodeRecord { (chidb_Btree_initEmptyNode { bt with n_pages := bt.n_pages + 1 } (bt.n_pages + 1) child.type) with n_pages := bt.n_pages + 2 } (bt.n_pages + 2) child.type) 0 (child.cells.drop (child.n_cells / 2 + 1))))))
      ((chidb_Btree_insertCell (insertSeq (initNodeRecord { bt with n_pages := bt.n_pages + 1 } (bt.n_pages + 1) child.type) 0 (child.cells.take (child.n_cells / 2))) (child.n_cells / 2) (child.cells.getD (child.n_cells / 2) default)).2)), bt.n_pages + 1) := by
    simp only [chidb_Btree_split, hgp, hgc, halloc1, hg3, halloc2, hg4, hcut,
      chidb_Btree_getCell, if_neg hmed, hlf1, hlf2, hlf3, if_true, if_false,
      getNode_initEmpty_self, initEmpty_n_pages, hcle, hcge]
  have hsibnp : ((chidb_Btree_insertCell (insertSeq (initNodeRecord { bt with n_pages := bt.n_pages + 1 } (bt.n_pages + 1) child.type) 0 (child.cells.take (child.n_cells / 2))) (child.n_cells / 2) (child.cells.getD (child.n_cells / 2) default)).2).npage = bt.n_pages + 1 := by
    rw [insertCell_npage, insertSeq_npage, initNodeRecord_npage]
  have hchildnp : ((insertSeq { (initNodeRecord (chidb_Btree_initEmptyNode { (chidb_Btree_initEmptyNode { bt with n_pages := bt.n_pages + 1 } (bt.n_pages + 1) child.type) with n_pages := bt.n_pages + 2 } (bt.n_pages + 2) child.type) npage_child (insertSeq (initNodeRecord { (chidb_Btree_initEmptyNode { bt with n_pages := bt.n_pages + 1 } (bt.n_pages + 1) child.type) with n_pages := bt.n_pages + 2 } (bt.n_pages + 2) child.type) 0 (child.cells.drop (child.n_cells / 2 + 1))).type) with right_page := child.right_page } 0 (cellsUpTo (insertSeq (initNodeRecord { (chidb_Btree_initEmptyNode { bt with n_pages := bt.n_pages + 1 } (bt.n_pages + 1) child.type) with n_pages := bt.n_pages + 2 } (bt.n_pages + 2) child.type) 0 (child.cells.drop (child.n_cells / 2 + 1)))))).npage = npage_child := by
    rw [insertSeq_npage, initNodeRecord_npage]
  have hparnp : ((chidb_Btree_insertCell parent parent_ncell
        (if parent.type = PGTYPE_TABLE_INTERNAL then
          BTreeCell.tableInternal (bt.n_pages + 1) (cellKey (child.cells.getD (child.n_cells / 2) default))
        else if parent.type = PGTYPE_INDEX_INTERNAL then
          BTreeCell.indexInternal (bt.n_pages + 1) (cellKey (child.cells.getD (child.n_cells / 2) default)) (cellKeyPk (child.cells.getD (child.n_cells / 2) default))
        else (child.cells.getD (child.n_cells / 2) default))).2).npage = npage_parent := by
    rw [insertCell_npage, hpp]
  have hp1 : ((chidb_Btree_writeNode (chidb_Btree_writeNode (chidb_Btree_writeNode
      { chidb_Btree_initEmptyNode (chidb_Btree_initEmptyNode { (chidb_Btree_initEmptyNode { bt with n_pages := bt.n_pages + 1 } (bt.n_pages + 1) child.type) with n_pages := bt.n_pages + 2 } (bt.n_pages + 2) child.type) npage_child (insertSeq (initNodeRecord { (chidb_Btree_initEmptyNode { bt with n_pages := bt.n_pages + 1 } (bt.n_pages + 1) child.type) with n_pages := bt.n_pages + 2 } (bt.n_pages + 2) child.type) 0 (child.cells.drop (child.n_cells / 2 + 1))).type with n_pages := bt.n_pages + 2 - 1 }
      (chidb_Btree_insertCell parent parent_ncell
        (if parent.type = PGTYPE_TABLE_INTERNAL then
          BTreeCell.tableInternal (bt.n_pages + 1) (cellKey (child.cells.getD (child.n_cells / 2) default))
        else if parent.type = PGTYPE_INDEX_INTERNAL then
          BTreeCell.indexInternal (bt.n_pages + 1) (cellKey (child.cells.getD (child.n_cells / 2) default)) (cellKeyPk (child.cells.getD (child.n_cells / 2) default))
        else (child.cells.getD (child.n_cells / 2) default))).2)
      (insertSeq { (initNodeRecord (chidb_Btree_initEmptyNode { (chidb_Btree_initEmptyNode { bt with n_pages := bt.n_pages + 1 } (bt.n_pages + 1) child.type) with n_pages := bt.n_pages + 2 } (bt.n_pages + 2) child.type) npage_child (insertSeq (initNodeRecord { (chidb_Btree_initEmptyNode { bt with n_pages := bt.n_pages + 1 } (bt.n_pages + 1) child.type) with n_pages := bt.n_pages + 2 } (bt.n_pages + 2) child.type) 0 (child.cells.drop (child.n_cells / 2 + 1))).type) with right_page := child.right_page } 0 (cellsUpTo (insertSeq (initNodeRecord { (chidb_Btree_initEmptyNode { bt with n_pages := bt.n_pages + 1 } (bt.n_pages + 1) child.type) with n_pages := bt.n_pages + 2 } (bt.n_pages + 2) child.type) 0 (child.cells.drop (child.n_cells / 2 + 1))))))
      ((chidb_Btree_insertCell (insertSeq (initNodeRecord { bt with n_pages := bt.n_pages + 1 } (bt.n_pages + 1) child.type) 0 (child.cells.take (child.n_cells / 2))) (child.n_cells / 2) (child.cells.getD (child.n_cells / 2) default)).2))).pages (bt.n_pages + 1) = some ((chidb_Btree_insertCell (insertSeq (initNodeRecord { bt with n_pages := bt.n_pages + 1 } (bt.n_pages + 1) child.type) 0 (child.cells.take (child.n_cells / 2))) (child.n_cells / 2) (child.cells.getD (child.n_cells / 2) default)).2) := by
    rw [pages_writeNode, if_pos hsibnp.symm]
  have hp2 : ((chidb_Btree_writeNode (chidb_Btree_writeNode (chidb_Btree_writeNode
      { chidb_Btree_initEmptyNode (chidb_Btree_initEmptyNode { (chidb_Btree_initEmptyNode { bt with n_pages := bt.n_pages + 1 } (bt.n_pages + 1) child.type) with n_pages := bt.n_pages + 2 } (bt.n_pages + 2) child.type) npage_child (insertSeq (initNodeRecord { (chidb_Btree_initEmptyNode { bt with n_pages := bt.n_pages + 1 } (bt.n_pages + 1) child.type) with n_pages := bt.n_pages + 2 } (bt.n_pages + 2) child.type) 0 (child.cells.drop (child.n_cells / 2 + 1))).type with n_pages := bt.n_pages + 2 - 1 }
      (chidb_Btree_insertCell parent parent_ncell
        (if parent.type = PGTYPE_TABLE_INTERNAL then
          BTreeCell.tableInternal (bt.n_pages + 1) (cellKey (child.cells.getD (child.n_cells / 2) default))
        else if parent.type = PGTYPE_INDEX_INTERNAL then
          BTreeCell.indexInternal (bt.n_pages + 1) (cellKey (child.cells.getD (child.n_cells / 2) default)) (cellKeyPk (child.cells.getD (child.n_cells / 2) default))
        else (child.cells.getD (child.n_cells / 2) default))).2)
      (insertSeq { (initNodeRecord (chidb_Btree_initEmptyNode { (chidb_Btree_initEmptyNode { bt with n_pages := bt.n_pages + 1 } (bt.n_pages + 1) child.type) with n_pages := bt.n_pages + 2 } (bt.n_pages + 2) child.type) npage_child (insertSeq (initNodeRecord { (chidb_Btree_initEmptyNode { bt with n_pages := bt.n_pages + 1 } (bt.n_pages + 1) child.type) with n_pages := bt.n_pages + 2 } (bt.n_pages + 2) child.type) 0 (child.cells.drop (child.n_cells / 2 + 1))).type) with right_page := child.right_page } 0 (cellsUpTo (insertSeq (initNodeRecord { (chidb_Btree_initEmptyNode { bt with n_pages := bt.n_pages + 1 } (bt.n_pages + 1) child.type) with n_pages := bt.n_pages + 2 } (bt.n_pages + 2) child.type) 0 (child.cells.drop (child.n_cells / 2 + 1))))))
      ((chidb_Btree_insertCell (insertSeq (initNodeRecord { bt with n_pages := bt.n_pages + 1 } (bt.n_pages + 1) child.type) 0 (child.cells.take (child.n_cells / 2))) (child.n_cells / 2) (child.cells.getD (child.n_cells / 2) default)).2))).pages npage_child = some ((insertSeq { (initNodeRecord (chidb_Btree_initEmptyNode { (chidb_Btree_initEmptyNode { bt with n_pages := bt.n_pages + 1 } (bt.n_pages + 1) child.type) with n_pages := bt.n_pages + 2 } (bt.n_pages + 2) child.type) npage_child (insertSeq (initNodeRecord { (chidb_Btree_initEmptyNode { bt with n_pages := bt.n_pages + 1 } (bt.n_pages + 1) child.type) with n_pages := bt.n_pages + 2 } (bt.n_pages + 2) child.type) 0 (child.cells.drop (child.n_cells / 2 + 1))).type) with right_page := child.right_page } 0 (cellsUpTo (insertSeq (initNodeRecord { (chidb_Btree_initEmptyNode { bt with n_pages := bt.n_pages + 1 } (bt.n_pages + 1) child.type) with n_pages := bt.n_pages + 2 } (bt.n_pages + 2) child.type) 0 (child.cells.drop (child.n_cells / 2 + 1)))))) := by
    rw [pages_writeNode, if_neg (by rw [hsibnp]; omega),
      pages_writeNode, if_pos hchildnp.symm]
  have hp3 : ((chidb_Btree_writeNode (chidb_Btree_writeNode (chidb_Btree_writeNode
      { chidb_Btree_initEmptyNode (chidb_Btree_initEmptyNode { (chidb_Btree_initEmptyNode { bt with n_pages := bt.n_pages + 1 } (bt.n_pages + 1) child.type) with n_pages := bt.n_pages + 2 } (bt.n_pages + 2) child.type) npage_child (insertSeq (initNodeRecord { (chidb_Btree_initEmptyNode { bt with n_pages := bt.n_pages + 1 } (bt.n_pages + 1) child.type) with n_pages := bt.n_pages + 2 } (bt.n_pages + 2) child.type) 0 (child.cells.drop (child.n_cells / 2 + 1))).type with n_pages := bt.n_pages + 2 - 1 }
      (chidb_Btree_insertCell parent parent_ncell
        (if parent.type = PGTYPE_TABLE_INTERNAL then
          BTreeCell.tableInternal (bt.n_pages + 1) (cellKey (child.cells.getD (child.n_cells / 2) default))
        else if parent.type = PGTYPE_INDEX_INTERNAL then
          BTreeCell.indexInternal (bt.n_pages + 1) (cellKey (child.cells.getD (child.n_cells / 2) default)) (cellKeyPk (child.cells.getD (child.n_cells / 2) default))
        else (child.cells.getD (child.n_cells / 2) default))).2)
      (insertSeq { (initNodeRecord (chidb_Btree_initEmptyNode { (chidb_Btree_initEmptyNode { bt with n_pages := bt.n_pages + 1 } (bt.n_pages + 1) child.type) with n_pages := bt.n_pages + 2 } (bt.n_pages + 2) child.type) npage_child (insertSeq (initNodeRecord { (chidb_Btree_initEmptyNode { bt with n_pages := bt.n_pages + 1 } (bt.n_pages + 1) child.type) with n_pages := bt.n_pages + 2 } (bt.n_pages + 2) child.type) 0 (child.cells.drop (child.n_cells / 2 + 1))).type) with right_page := child.right_page } 0 (cellsUpTo (insertSeq (initNodeRecord { (chidb_Btree_initEmptyNode { bt with n_pages := bt.n_pages + 1 } (bt.n_pages + 1) child.type) with n_pages := bt.n_pages + 2 } (bt.n_pages + 2) child.type) 0 (child.cells.drop (child.n_cells / 2 + 1))))))
      ((chidb_Btree_insertCell (insertSeq (initNodeRecord { bt with n_pages := bt.n_pages + 1 } (bt.n_pages + 1) child.type) 0 (child.cells.take (child.n_cells / 2))) (child.n_cells / 2) (child.cells.getD (child.n_cells / 2) default)).2))).pages npage_parent = some ((chidb_Btree_insertCell parent parent_ncell
        (if parent.type = PGTYPE_TABLE_INTERNAL then
          BTreeCell.tableInternal (bt.n_pages + 1) (cellKey (child.cells.getD (child.n_cells / 2) default))
        else if parent.type = PGTYPE_INDEX_INTERNAL then
          BTreeCell.indexInternal (bt.n_pages + 1) (cellKey (child.cells.getD (child.n_cells / 2) default)) (cellKeyPk (child.cells.getD (child.n_cells / 2) default))
        else (child.cells.getD (child.n_cells / 2) default))).2) := by
    rw [pages_writeNode, if_neg (by rw [hsibnp]; omega),
      pages_writeNode, if_neg (by rw [hchildnp]; exact hne),
      pages_writeNode, if_pos hparnp.symm]
  have hlen1 : (child.cells.take (child.n_cells / 2)).length < 65536 := by
    rw [List.length_take]; omega
  have hNN1 := insertSeq_from_empty (child.cells.take (child.n_cells / 2)) (initNodeRecord { bt with n_pages := bt.n_pages + 1 } (bt.n_pages + 1) child.type) rfl rfl hlen1
  have hsibcells : ((chidb_Btree_insertCell (insertSeq (initNodeRecord { bt with n_pages := bt.n_pages + 1 } (bt.n_pages + 1) child.type) 0 (child.cells.take (child.n_cells / 2))) (child.n_cells / 2) (child.cells.getD (child.n_cells / 2) default)).2).cells =
      (child.cells.take (child.n_cells / 2)).map storeForm ++
        [storeForm (child.cells.getD (child.n_cells / 2) default)] := by
    rw [insertCell_cells, hNN1.1]
    exact insertAt_eq_append _ _ _ (by rw [List.length_map, List.length_take]; omega)
  have hlen2 : (child.cells.drop (child.n_cells / 2 + 1)).length < 65536 := by
    rw [List.length_drop]; omega
  have htop := insertSeq_from_empty (child.cells.drop (child.n_cells / 2 + 1)) (initNodeRecord { (chidb_Btree_initEmptyNode { bt with n_pages := bt.n_pages + 1 } (bt.n_pages + 1) child.type) with n_pages := bt.n_pages + 2 } (bt.n_pages + 2) child.type) rfl rfl hlen2
  have hcut2 : cellsUpTo (insertSeq (initNodeRecord { (chidb_Btree_initEmptyNode { bt with n_pages := bt.n_pages + 1 } (bt.n_pages + 1) child.type) with n_pages := bt.n_pages + 2 } (bt.n_pages + 2) child.type) 0 (child.cells.drop (child.n_cells / 2 + 1))) =
      (child.cells.drop (child.n_cells / 2 + 1)).map storeForm := by
    rw [cellsUpTo, htop.1, htop.2.1]
    exact List.take_of_length_le (by rw [List.length_map])
  have hlen3 : (cellsUpTo (insertSeq (initNodeRecord { (chidb_Btree_initEmptyNode { bt with n_pages := bt.n_pages + 1 } (bt.n_pages + 1) child.type) with n_pages := bt.n_pages + 2 } (bt.n_pages + 2) child.type) 0 (child.cells.drop (child.n_cells / 2 + 1)))).length < 65536 := by
    rw [hcut2, List.length_map, List.length_drop]; omega
  have hchildc := insertSeq_from_empty (cellsUpTo (insertSeq (initNodeRecord { (chidb_Btree_initEmptyNode { bt with n_pages := bt.n_pages + 1 } (bt.n_pages + 1) child.type) with n_pages := bt.n_pages + 2 } (bt.n_pages + 2) child.type) 0 (child.cells.drop (child.n_cells / 2 + 1))))
    { (initNodeRecord (chidb_Btree_initEmptyNode { (chidb_Btree_initEmptyNode { bt with n_pages := bt.n_pages + 1 } (bt.n_pages + 1) child.type) with n_pages := bt.n_pages + 2 } (bt.n_pages + 2) child.type) npage_child (insertSeq (initNodeRecord { (chidb_Btree_initEmptyNode { bt with n_pages := bt.n_pages + 1 } (bt.n_pages + 1) child.type) with n_pages := bt.n_pages + 2 } (bt.n_pages + 2) child.type) 0 (child.cells.drop (child.n_cells / 2 + 1))).type) with right_page := child.right_page } rfl rfl hlen3
  have hchildcells : ((insertSeq { (initNodeRecord (chidb_Btree_initEmptyNode { (chidb_Btree_initEmptyNode { bt with n_pages := bt.n_pages + 1 } (bt.n_pages + 1) child.type) with n_pages := bt.n_pages + 2 } (bt.n_pages + 2) child.type) npage_child (insertSeq (initNodeRecord { (chidb_Btree_initEmptyNode { bt with n_pages := bt.n_pages + 1 } (bt.n_pages + 1) child.type) with n_pages := bt.n_pages + 2 } (bt.n_pages + 2) child.type) 0 (child.cells.drop (child.n_cells / 2 + 1))).type) with right_page := child.right_page } 0 (cellsUpTo (insertSeq (initNodeRecord { (chidb_Btree_initEmptyNode { bt with n_pages := bt.n_pages + 1 } (bt.n_pages + 1) child.type) with n_pages := bt.n_pages + 2 } (bt.n_pages + 2) child.type) 0 (child.cells.drop (child.n_cells / 2 + 1)))))).cells =
      ((child.cells.drop (child.n_cells / 2 + 1)).map storeForm).map storeForm := by
    rw [hchildc.1, hcut2]
  have hparcells : ((chidb_Btree_insertCell parent parent_ncell
        (if parent.type = PGTYPE_TABLE_INTERNAL then
          BTreeCell.tableInternal (bt.n_pages + 1) (cellKey (child.cells.getD (child.n_cells / 2) default))
        else if parent.type = PGTYPE_INDEX_INTERNAL then
          BTreeCell.indexInternal (bt.n_pages + 1) (cellKey (child.cells.getD (child.n_cells / 2) default)) (cellKeyPk (child.cells.getD (child.n_cells / 2) default))
        else (child.cells.getD (child.n_cells / 2) default))).2).cells = insertAt parent.cells parent_ncell (storeForm
      (if parent.type = PGTYPE_TABLE_INTERNAL then
          BTreeCell.tableInternal (bt.n_pages + 1) (cellKey (child.cells.getD (child.n_cells / 2) default))
        else if parent.type = PGTYPE_INDEX_INTERNAL then
          BTreeCell.indexInternal (bt.n_pages + 1) (cellKey (child.cells.getD (child.n_cells / 2) default)) (cellKeyPk (child.cells.getD (child.n_cells / 2) default))
        else (child.cells.getD (child.n_cells / 2) default))) := insertCell_cells _ _ _
  exact ⟨_, _, _, _, hrun, hp1, hp2, hp3, hsibnp, hsibcells, hchildcells, hparcells⟩

theorem split_run_nonleaf (bt : BTree) (npage_parent npage_child parent_ncell : Nat)
    (parent child : BTreeNode)
    (hgp : chidb_Btree_getNodeByPage bt npage_parent = some parent)
    (hgc : chidb_Btree_getNodeByPage bt npage_child = some child)
    (hpp : parent.npage = npage_parent)
    (hne : npage_parent ≠ npage_child)
    (hcnc : child.n_cells = child.cells.length)
    (hn1 : 1 ≤ child.n_cells)
    (hnb : child.n_cells < 30000)
    (hnl : child.type ≠ PGTYPE_TABLE_LEAF) :
    ∃ (bt' : BTree) (sib chd par : BTreeNode),
      chidb_Btree_split bt npage_parent npage_child parent_ncell =
        (.ok, bt', bt.n_pages + 1) ∧
      bt'.pages (bt.n_pages + 1) = some sib ∧
      bt'.pages npage_child = some chd ∧
      bt'.pages npage_parent = some par ∧
      sib.npage = bt.n_pages + 1 ∧
      sib.cells = (child.cells.take (child.n_cells / 2)).map storeForm ∧
      chd.cells = ((child.cells.drop (child.n_cells / 2)).map storeForm).map storeForm ∧
      par.cells = insertAt parent.cells parent_ncell (storeForm
        (if parent.type = PGTYPE_TABLE_INTERNAL then
          BTreeCell.tableInternal (bt.n_pages + 1)
            (cellKey (child.cells.getD (child.n_cells / 2) default))
        else if parent.type = PGTYPE_INDEX_INTERNAL then
          BTreeCell.indexInternal (bt.n_pages + 1)
            (cellKey (child.cells.getD (child.n_cells / 2) default))
            (cellKeyPk (child.cells.getD (child.n_cells / 2) default))
        else child.cells.getD (child.n_cells / 2) default)) := by
  obtain ⟨hb1a, hb1b, hb1c⟩ := getNode_bounds hgp
  obtain ⟨hb2a, hb2b, hb2c⟩ := getNode_bounds hgc
  have hlf1 : (child.type = PGTYPE_TABLE_LEAF) = False := by simp [hnl]
  have halloc1 : chidb_Btree_newNode bt child.type =
      ((chidb_Btree_initEmptyNode { bt with n_pages := bt.n_pages + 1 } (bt.n_pages + 1) child.type), bt.n_pages + 1) := rfl
  have hg3 : chidb_Btree_getNodeByPage (chidb_Btree_initEmptyNode { bt with n_pages := bt.n_pages + 1 } (bt.n_pages + 1) child.type) (bt.n_pages + 1) =
      some (initNodeRecord { bt with n_pages := bt.n_pages + 1 } (bt.n_pages + 1) child.type) :=
    getNode_initEmpty_self _ _ _ (by omega) (by rfl)
  have halloc2 : chidb_Btree_newNode (chidb_Btree_initEmptyNode { bt with n_pages := bt.n_pages + 1 } (bt.n_pages + 1) child.type) child.type =
      ((chidb_Btree_initEmptyNode { (chidb_Btree_initEmptyNode { bt with n_pages := bt.n_pages + 1 } (bt.n_pages + 1) child.type) with n_pages := bt.n_pages + 2 } (bt.n_pages + 2) child.type), bt.n_pages + 2) := rfl
  have hg4 : chidb_Btree_getNodeByPage (chidb_Btree_initEmptyNode { (chidb_Btree_initEmptyNode { bt with n_pages := bt.n_pages + 1 } (bt.n_pages + 1) child.type) with n_pages := bt.n_pages + 2 } (bt.n_pages + 2) child.type) (bt.n_pages + 2) =
      some (initNodeRecord { (chidb_Btree_initEmptyNode { bt with n_pages := bt.n_pages + 1 } (bt.n_pages + 1) child.type) with n_pages := bt.n_pages + 2 } (bt.n_pages + 2) child.type) :=
    getNode_initEmpty_self _ _ _ (by omega) (by rfl)
  have hmed : ¬(child.n_cells < child.n_cells / 2) := by omega
  have hcut : cellsUpTo child = child.cells := cellsUpTo_eq hcnc
  have hcle : npage_child ≤ bt.n_pages + 2 := by omega
  have hcge : 1 ≤ npage_child := hb2a
  have hrun : chidb_Btree_split bt npage_parent npage_child parent_ncell =
      (.ok, (chidb_Btree_writeNode (chidb_Btree_writeNode (chidb_Btree_writeNode
      { chidb_Btree_initEmptyNode (chidb_Btree_initEmptyNode { (chidb_Btree_initEmptyNode { bt with n_pages := bt.n_pages + 1 } (bt.n_pages + 1) child.type) with n_pages := bt.n_pages + 2 } (bt.n_pages + 2) child.type) npage_child (insertSeq (initNodeRecord { (chidb_Btree_initEmptyNode { bt with n_pages := bt.n_pages + 1 } (bt.n_pages + 1) child.type) with n_pages := bt.n_pages + 2 } (bt.n_pages + 2) child.type) 0 (child.cells.drop (child.n_cells / 2))).type with n_pages := bt.n_pages + 2 - 1 }
      (chidb_Btree_insertCell parent parent_ncell
        (if parent.type = PGTYPE_TABLE_INTERNAL then
          BTreeCell.tableInternal (bt.n_pages + 1) (cellKey (child.cells.getD (child.n_cells / 2) default))
        else if parent.type = PGTYPE_INDEX_INTERNAL then
          BTreeCell.indexInternal (bt.n_pages + 1) (cellKey (child.cells.getD (child.n_cells / 2) default)) (cellKeyPk (child.cells.getD (child.n_cells / 2) default))
        else (child.cells.getD (child.n_cells / 2) default))).2)
      (insertSeq { (initNodeRecord (chidb_Btree_initEmptyNode { (chidb_Btree_initEmptyNode { bt with n_pages := bt.n_pages + 1 } (bt.n_pages + 1) child.type) with n_pages := bt.n_pages + 2 } (bt.n_pages + 2) child.type) npage_child (insertSeq (initNodeRecord { (chidb_Btree_initEmptyNode { bt with n_pages := bt.n_pages + 1 } (bt.n_pages + 1) child.type) with n_pages := bt.n_pages + 2 } (bt.n_pages + 2) child.type) 0 (child.cells.drop (child.n_cells / 2))).type) with right_page := child.right_page } 0 (cellsUpTo (insertSeq (initNodeRecord { (chidb_Btree_initEmptyNode { bt with n_pages := bt.n_pages + 1 } (bt.n_pages + 1) child.type) with n_pages := bt.n_pages + 2 } (bt.n_pages + 2) child.type) 0 (child.cells.drop (child.n_cells / 2))))))
      ((if child.type = PGTYPE_TABLE_INTERNAL then
      { (insertSeq (initNodeRecord { bt with n_pages := bt.n_pages + 1 } (bt.n_pages + 1) child.type) 0 (child.cells.take (child.n_cells / 2))) with right_page := cellChildPage (child.cells.getD (child.n_cells / 2) default) }
    else if child.type = PGTYPE_INDEX_INTERNAL then
      { (insertSeq (initNodeRecord { bt with n_pages := bt.n_pages + 1 } (bt.n_pages + 1) child.type) 0 (child.cells.take (child.n_cells / 2))) with right_page := cellChildPage (child.cells.getD (child.n_cells / 2) default) }
    else (insertSeq (initNodeRecord { bt with n_pages := bt.n_pages + 1 } (bt.n_pages + 1) child.type) 0 (child.cells.take (child.n_cells / 2)))))), bt.n_pages + 1) := by
    simp only [chidb_Btree_split, hgp, hgc, halloc1, hg3, halloc2, hg4, hcut,
      chidb_Btree_getCell, if_neg hmed, hlf1, if_true, if_false,
      getNode_initEmpty_self, initEmpty_n_pages, hcle, hcge]
  have hlen1 : (child.cells.take (child.n_cells / 2)).length < 65536 := by
    rw [List.length_take]; omega
  have hNN1 := insertSeq_from_empty (child.cells.take (child.n_cells / 2)) (initNodeRecord { bt with n_pages := bt.n_pages + 1 } (bt.n_pages + 1) child.type) rfl rfl hlen1
  have hNN1np : ((insertSeq (initNodeRecord { bt with n_pages := bt.n_pages + 1 } (bt.n_pages + 1) child.type) 0 (child.cells.take (child.n_cells / 2)))).npage = bt.n_pages + 1 := by
    rw [insertSeq_npage, initNodeRecord_npage]
  have hsibnp : ((if child.type = PGTYPE_TABLE_INTERNAL then
      { (insertSeq (initNodeRecord { bt with n_pages := bt.n_pages + 1 } (bt.n_pages + 1) child.type) 0 (child.cells.take (child.n_cells / 2))) with right_page := cellChildPage (child.cells.getD (child.n_cells / 2) default) }
    else if child.type = PGTYPE_INDEX_INTERNAL then
      { (insertSeq (initNodeRecord { bt with n_pages := bt.n_pages + 1 } (bt.n_pages + 1) child.type) 0 (child.cells.take (child.n_cells / 2))) with right_page := cellChildPage (child.cells.getD (child.n_cells / 2) default) }
    else (insertSeq (initNodeRecord { bt with n_pages := bt.n_pages + 1 } (bt.n_pages + 1) child.type) 0 (child.cells.take (child.n_cells / 2))))).npage = bt.n_pages + 1 := by
    rcases Decidable.em (child.type = PGTYPE_TABLE_INTERNAL) with h1 | h1
    · rw [if_pos h1]; exact hNN1np
    · rw [if_neg h1]
      rcases Decidable.em (child.type = PGTYPE_INDEX_INTERNAL) with h2 | h2
      · rw [if_pos h2]; exact hNN1np
      · rw [if_neg h2]; exact hNN1np
  have hsibcells : ((if child.type = PGTYPE_TABLE_INTERNAL then
      { (insertSeq (initNodeRecord { bt with n_pages := bt.n_pages + 1 } (bt.n_pages + 1) child.type) 0 (child.cells.take (child.n_cells / 2))) with right_page := cellChildPage (child.cells.getD (child.n_cells / 2) default) }
    else if child.type = PGTYPE_INDEX_INTERNAL then
      { (insertSeq (initNodeRecord { bt with n_pages := bt.n_pages + 1 } (bt.n_pages + 1) child.type) 0 (child.cells.take (child.n_cells / 2))) with right_page := cellChildPage (child.cells.getD (child.n_cells / 2) default) }
    else (insertSeq (initNodeRecord { bt with n_pages := bt.n_pages + 1 } (bt.n_pages + 1) child.type) 0 (child.cells.take (child.n_cells / 2))))).cells =
      (child.cells.take (child.n_cells / 2)).map storeForm := by
    rcases Decidable.em (child.type = PGTYPE_TABLE_INTERNAL) with h1 | h1
    · rw [if_pos h1]; exact hNN1.1
    · rw [if_neg h1]
      rcases Decidable.em (child.type = PGTYPE_INDEX_INTERNAL) with h2 | h2
      · rw [if_pos h2]; exact hNN1.1
      · rw [if_neg h2]; exact hNN1.1
  have hchildnp : ((insertSeq { (initNodeRecord (chidb_Btree_initEmptyNode { (chidb_Btree_initEmptyNode { bt with n_pages := bt.n_pages + 1 } (bt.n_pages + 1) child.type) with n_pages := bt.n_pages + 2 } (bt.n_pages + 2) child.type) npage_child (insertSeq (initNodeRecord { (chidb_Btree_initEmptyNode { bt with n_pages := bt.n_pages + 1 } (bt.n_pages + 1) child.type) with n_pages := bt.n_pages + 2 } (bt.n_pages + 2) child.type) 0 (child.cells.drop (child.n_cells / 2))).type) with right_page := child.right_page } 0 (cellsUpTo (insertSeq (initNodeRecord { (chidb_Btree_initEmptyNode { bt with n_pages := bt.n_pages + 1 } (bt.n_pages + 1) child.type) with n_pages := bt.n_pages + 2 } (bt.n_pages + 2) child.type) 0 (child.cells.drop (child.n_cells / 2)))))).npage = npage_child := by
    rw [insertSeq_npage, initNodeRecord_npage]
  have hparnp : ((chidb_Btree_insertCell parent parent_ncell
        (if parent.type = PGTYPE_TABLE_INTERNAL then
          BTreeCell.tableInternal (bt.n_pages + 1) (cellKey (child.cells.getD (child.n_cells / 2) default))
        else if parent.type = PGTYPE_INDEX_INTERNAL then
          BTreeCell.indexInternal (bt.n_pages + 1) (cellKey (child.cells.getD (child.n_cells / 2) default)) (cellKeyPk (child.cells.getD (child.n_cells / 2) default))
        else (child.cells.getD (child.n_cells / 2) default))).2).npage = npage_parent := by
    rw [insertCell_npage, hpp]
  have hp1 : ((chidb_Btree_writeNode (chidb_Btree_writeNode (chidb_Btree_writeNode
      { chidb_Btree_initEmptyNode (chidb_Btree_initEmptyNode { (chidb_Btree_initEmptyNode { bt with n_pages := bt.n_pages + 1 } (bt.n_pages + 1) child.type) with n_pages := bt.n_pages + 2 } (bt.n_pages + 2) child.type) npage_child (insertSeq (initNodeRecord { (chidb_Btree_initEmptyNode { bt with n_pages := bt.n_pages + 1 } (bt.n_pages + 1) child.type) with n_pages := bt.n_pages + 2 } (bt.n_pages + 2) child.type) 0 (child.cells.drop (child.n_cells / 2))).type with n_pages := bt.n_pages + 2 - 1 }
      (chidb_Btree_insertCell parent parent_ncell
        (if parent.type = PGTYPE_TABLE_INTERNAL then
          BTreeCell.tableInternal (bt.n_pages + 1) (cellKey (child.cells.getD (child.n_cells / 2) default))
        else if parent.type = PGTYPE_INDEX_INTERNAL then
          BTreeCell.indexInternal (bt.n_pages + 1) (cellKey (child.cells.getD (child.n_cells / 2) default)) (cellKeyPk (child.cells.getD (child.n_cells / 2) default))
        else (child.cells.getD (child.n_cells / 2) default))).2)
      (insertSeq { (initNodeRecord (chidb_Btree_initEmptyNode { (chidb_Btree_initEmptyNode { bt with n_pages := bt.n_pages + 1 } (bt.n_pages + 1) child.type) with n_pages := bt.n_pages + 2 } (bt.n_pages + 2) child.type) npage_child (insertSeq (initNodeRecord { (chidb_Btree_initEmptyNode { bt with n_pages := bt.n_pages + 1 } (bt.n_pages + 1) child.type) with n_pages := bt.n_pages + 2 } (bt.n_pages + 2) child.type) 0 (child.cells.drop (child.n_cells / 2))).type) with right_page := child.right_page } 0 (cellsUpTo (insertSeq (initNodeRecord { (chidb_Btree_initEmptyNode { bt with n_pages := bt.n_pages + 1 } (bt.n_pages + 1) child.type) with n_pages := bt.n_pages + 2 } (bt.n_pages + 2) child.type) 0 (child.cells.drop (child.n_cells / 2))))))
      ((if child.type = PGTYPE_TABLE_INTERNAL then
      { (insertSeq (initNodeRecord { bt with n_pages := bt.n_pages + 1 } (bt.n_pages + 1) child.type) 0 (child.cells.take (child.n_cells / 2))) with right_page := cellChildPage (child.cells.getD (child.n_cells / 2) default) }
    else if child.type = PGTYPE_INDEX_INTERNAL then
      { (insertSeq (initNodeRecord { bt with n_pages := bt.n_pages + 1 } (bt.n_pages + 1) child.type) 0 (child.cells.take (child.n_cells / 2))) with right_page := cellChildPage (child.cells.getD (child.n_cells / 2) default) }
    else (insertSeq (initNodeRecord { bt with n_pages := bt.n_pages + 1 } (bt.n_pages + 1) child.type) 0 (child.cells.take (child.n_cells / 2))))))).pages (bt.n_pages + 1) = some ((if child.type = PGTYPE_TABLE_INTERNAL then
      { (insertSeq (initNodeRecord { bt with n_pages := bt.n_pages + 1 } (bt.n_pages + 1) child.type) 0 (child.cells.take (child.n_cells / 2))) with right_page := cellChildPage (child.cells.getD (child.n_cells / 2) default) }
    else if child.type = PGTYPE_INDEX_INTERNAL then
      { (insertSeq (initNodeRecord { bt with n_pages := bt.n_pages + 1 } (bt.n_pages + 1) child.type) 0 (child.cells.take (child.n_cells / 2))) with right_page := cellChildPage (child.cells.getD (child.n_cells / 2) default) }
    else (insertSeq (initNodeRecord { bt with n_pages := bt.n_pages + 1 } (bt.n_pages + 1) child.type) 0 (child.cells.take (child.n_cells / 2))))) := by
    rw [pages_writeNode, if_pos hsibnp.symm]
  have hp2 : ((chidb_Btree_writeNode (chidb_Btree_writeNode (chidb_Btree_writeNode
      { chidb_Btree_initEmptyNode (chidb_Btree_initEmptyNode { (chidb_Btree_initEmptyNode { bt with n_pages := bt.n_pages + 1 } (bt.n_pages + 1) child.type) with n_pages := bt.n_pages + 2 } (bt.n_pages + 2) child.type) npage_child (insertSeq (initNodeRecord { (chidb_Btree_initEmptyNode { bt with n_pages := bt.n_pages + 1 } (bt.n_pages + 1) child.type) with n_pages := bt.n_pages + 2 } (bt.n_pages + 2) child.type) 0 (child.cells.drop (child.n_cells / 2))).type with n_pages := bt.n_pages + 2 - 1 }
      (chidb_Btree_insertCell parent parent_ncell
        (if parent.type = PGTYPE_TABLE_INTERNAL then
          BTreeCell.tableInternal (bt.n_pages + 1) (cellKey (child.cells.getD (child.n_cells / 2) default))
        else if parent.type = PGTYPE_INDEX_INTERNAL then
          BTreeCell.indexInternal (bt.n_pages + 1) (cellKey (child.cells.getD (child.n_cells / 2) default)) (cellKeyPk (child.cells.getD (child.n_cells / 2) default))
        else (child.cells.getD (child.n_cells / 2) default))).2)
      (insertSeq { (initNodeRecord (chidb_Btree_initEmptyNode { (chidb_Btree_initEmptyNode { bt with n_pages := bt.n_pages + 1 } (bt.n_pages + 1) child.type) with n_pages := bt.n_pages + 2 } (bt.n_pages + 2) child.type) npage_child (insertSeq (initNodeRecord { (chidb_Btree_initEmptyNode { bt with n_pages := bt.n_pages + 1 } (bt.n_pages + 1) child.type) with n_pages := bt.n_pages + 2 } (bt.n_pages + 2) child.type) 0 (child.cells.drop (child.n_cells / 2))).type) with right_page := child.right_page } 0 (cellsUpTo (insertSeq (initNodeRecord { (chidb_Btree_initEmptyNode { bt with n_pages := bt.n_pages + 1 } (bt.n_pages + 1) child.type) with n_pages := bt.n_pages + 2 } (bt.n_pages + 2) child.type) 0 (child.cells.drop (child.n_cells / 2))))))
      ((if child.type = PGTYPE_TABLE_INTERNAL then
      { (insertSeq (initNodeRecord { bt with n_pages := bt.n_pages + 1 } (bt.n_pages + 1) child.type) 0 (child.cells.take (child.n_cells / 2))) with right_page := cellChildPage (child.cells.getD (child.n_cells / 2) default) }
    else if child.type = PGTYPE_INDEX_INTERNAL then
      { (insertSeq (initNodeRecord { bt with n_pages := bt.n_pages + 1 } (bt.n_pages + 1) child.type) 0 (child.cells.take (child.n_cells / 2))) with right_page := cellChildPage (child.cells.getD (child.n_cells / 2) default) }
    else (insertSeq (initNodeRecord { bt with n_pages := bt.n_pages + 1 } (bt.n_pages + 1) child.type) 0 (child.cells.take (child.n_cells / 2))))))).pages npage_child = some ((insertSeq { (initNodeRecord (chidb_Btree_initEmptyNode { (chidb_Btree_initEmptyNode { bt with n_pages := bt.n_pages + 1 } (bt.n_pages + 1) child.type) with n_pages := bt.n_pages + 2 } (bt.n_pages + 2) child.type) npage_child (insertSeq (initNodeRecord { (chidb_Btree_initEmptyNode { bt with n_pages := bt.n_pages + 1 } (bt.n_pages + 1) child.type) with n_pages := bt.n_pages + 2 } (bt.n_pages + 2) child.type) 0 (child.cells.drop (child.n_cells / 2))).type) with right_page := child.right_page } 0 (cellsUpTo (insertSeq (initNodeRecord { (chidb_Btree_initEmptyNode { bt with n_pages := bt.n_pages + 1 } (bt.n_pages + 1) child.type) with n_pages := bt.n_pages + 2 } (bt.n_pages + 2) child.type) 0 (child.cells.drop (child.n_cells / 2)))))) := by
    rw [pages_writeNode, if_neg (by rw [hsibnp]; omega),
      pages_writeNode, if_pos hchildnp.symm]
  have hp3 : ((chidb_Btree_writeNode (chidb_Btree_writeNode (chidb_Btree_writeNode
      { chidb_Btree_initEmptyNode (chidb_Btree_initEmptyNode { (chidb_Btree_initEmptyNode { bt with n_pages := bt.n_pages + 1 } (bt.n_pages + 1) child.type) with n_pages := bt.n_pages + 2 } (bt.n_pages + 2) child.type) npage_child (insertSeq (initNodeRecord { (chidb_Btree_initEmptyNode { bt with n_pages := bt.n_pages + 1 } (bt.n_pages + 1) child.type) with n_pages := bt.n_pages + 2 } (bt.n_pages + 2) child.type) 0 (child.cells.drop (child.n_cells / 2))).type with n_pages := bt.n_pages + 2 - 1 }
      (chidb_Btree_insertCell parent parent_ncell
        (if parent.type = PGTYPE_TABLE_INTERNAL then
          BTreeCell.tableInternal (bt.n_pages + 1) (cellKey (child.cells.getD (child.n_cells / 2) default))
        else if parent.type = PGTYPE_INDEX_INTERNAL then
          BTreeCell.indexInternal (bt.n_pages + 1) (cellKey (child.cells.getD (child.n_cells / 2) default)) (cellKeyPk (child.cells.getD (child.n_cells / 2) default))
        else (child.cells.getD (child.n_cells / 2) default))).2)
      (insertSeq { (initNodeRecord (chidb_Btree_initEmptyNode { (chidb_Btree_initEmptyNode { bt with n_pages := bt.n_pages + 1 } (bt.n_pages + 1) child.type) with n_pages := bt.n_pages + 2 } (bt.n_pages + 2) child.type) npage_child (insertSeq (initNodeRecord { (chidb_Btree_initEmptyNode { bt with n_pages := bt.n_pages + 1 } (bt.n_pages + 1) child.type) with n_pages := bt.n_pages + 2 } (bt.n_pages + 2) child.type) 0 (child.cells.drop (child.n_cells / 2))).type) with right_page := child.right_page } 0 (cellsUpTo (insertSeq (initNodeRecord { (chidb_Btree_initEmptyNode { bt with n_pages := bt.n_pages + 1 } (bt.n_pages + 1) child.type) with n_pages := bt.n_pages + 2 } (bt.n_pages + 2) child.type) 0 (child.cells.drop (child.n_cells / 2))))))
      ((if child.type = PGTYPE_TABLE_INTERNAL then
      { (insertSeq (initNodeRecord { bt with n_pages := bt.n_pages + 1 } (bt.n_pages + 1) child.type) 0 (child.cells.take (child.n_cells / 2))) with right_page := cellChildPage (child.cells.getD (child.n_cells / 2) default) }
    else if child.type = PGTYPE_INDEX_INTERNAL then
      { (insertSeq (initNodeRecord { bt with n_pages := bt.n_pages + 1 } (bt.n_pages + 1) child.type) 0 (child.cells.take (child.n_cells / 2))) with right_page := cellChildPage (child.cells.getD (child.n_cells / 2) default) }
    else (insertSeq (initNodeRecord { bt with n_pages := bt.n_pages + 1 } (bt.n_pages + 1) child.type) 0 (child.cells.take (child.n_cells / 2))))))).pages npage_parent = some ((chidb_Btree_insertCell parent parent_ncell
        (if parent.type = PGTYPE_TABLE_INTERNAL then
          BTreeCell.tableInternal (bt.n_pages + 1) (cellKey (child.cells.getD (child.n_cells / 2) default))
        else if parent.type = PGTYPE_INDEX_INTERNAL then
          BTreeCell.indexInternal (bt.n_pages + 1) (cellKey (child.cells.getD (child.n_cells / 2) default)) (cellKeyPk (child.cells.getD (child.n_cells / 2) default))
        else (child.cells.getD (child.n_cells / 2) default))).2) := by
    rw [pages_writeNode, if_neg (by rw [hsibnp]; omega),
      pages_writeNode, if_neg (by rw [hchildnp]; exact hne),
      pages_writeNode, if_pos hparnp.symm]
  have hlen2 : (child.cells.drop (child.n_cells / 2)).length < 65536 := by
    rw [List.length_drop]; omega
  have htop := insertSeq_from_empty (child.cells.drop (child.n_cells / 2)) (initNodeRecord { (chidb_Btree_initEmptyNode { bt with n_pages := bt.n_pages + 1 } (bt.n_pages + 1) child.type) with n_pages := bt.n_pages + 2 } (bt.n_pages + 2) child.type) rfl rfl hlen2
  have hcut2 : cellsUpTo (insertSeq (initNodeRecord { (chidb_Btree_initEmptyNode { bt with n_pages := bt.n_pages + 1 } (bt.n_pages + 1) child.type) with n_pages := bt.n_pages + 2 } (bt.n_pages + 2) child.type) 0 (child.cells.drop (child.n_cells / 2))) =
      (child.cells.drop (child.n_cells / 2)).map storeForm := by
    rw [cellsUpTo, htop.1, htop.2.1]
    exact List.take_of_length_le (by rw [List.length_map])
  have hlen3 : (cellsUpTo (insertSeq (initNodeRecord { (chidb_Btree_initEmptyNode { bt with n_pages := bt.n_pages + 1 } (bt.n_pages + 1) child.type) with n_pages := bt.n_pages + 2 } (bt.n_pages + 2) child.type) 0 (child.cells.drop (child.n_cells / 2)))).length < 65536 := by
    rw [hcut2, List.length_map, List.length_drop]; omega
  have hchildc := insertSeq_from_empty (cellsUpTo (insertSeq (initNodeRecord { (chidb_Btree_initEmptyNode { bt with n_pages := bt.n_pages + 1 } (bt.n_pages + 1) child.type) with n_pages := bt.n_pages + 2 } (bt.n_pages + 2) child.type) 0 (child.cells.drop (child.n_cells / 2))))
    { (initNodeRecord (chidb_Btree_initEmptyNode { (chidb_Btree_initEmptyNode { bt with n_pages := bt.n_pages + 1 } (bt.n_pages + 1) child.type) with n_pages := bt.n_pages + 2 } (bt.n_pages + 2) child.type) npage_child (insertSeq (initNodeRecord { (chidb_Btree_initEmptyNode { bt with n_pages := bt.n_pages + 1 } (bt.n_pages + 1) child.type) with n_pages := bt.n_pages + 2 } (bt.n_pages + 2) child.type) 0 (child.cells.drop (child.n_cells / 2))).type) with right_page := child.right_page } rfl rfl hlen3
  have hchildcells : ((insertSeq { (initNodeRecord (chidb_Btree_initEmptyNode { (chidb_Btree_initEmptyNode { bt with n_pages := bt.n_pages + 1 } (bt.n_pages + 1) child.type) with n_pages := bt.n_pages + 2 } (bt.n_pages + 2) child.type) npage_child (insertSeq (initNodeRecord { (chidb_Btree_initEmptyNode { bt with n_pages := bt.n_pages + 1 } (bt.n_pages + 1) child.type) with n_pages := bt.n_pages + 2 } (bt.n_pages + 2) child.type) 0 (child.cells.drop (child.n_cells / 2))).type) with right_page := child.right_page } 0 (cellsUpTo (insertSeq (initNodeRecord { (chidb_Btree_initEmptyNode { bt with n_pages := bt.n_pages + 1 } (bt.n_pages + 1) child.type) with n_pages := bt.n_pages + 2 } (bt.n_pages + 2) child.type) 0 (child.cells.drop (child.n_cells / 2)))))).cells =
      ((child.cells.drop (child.n_cells / 2)).map storeForm).map storeForm := by
    rw [hchildc.1, hcut2]
  have hparcells : ((chidb_Btree_insertCell parent parent_ncell
        (if parent.type = PGTYPE_TABLE_INTERNAL then
          BTreeCell.tableInternal (bt.n_pages + 1) (cellKey (child.cells.getD (child.n_cells / 2) default))
        else if parent.type = PGTYPE_INDEX_INTERNAL then
          BTreeCell.indexInternal (bt.n_pages + 1) (cellKey (child.cells.getD (child.n_cells / 2) default)) (cellKeyPk (child.cells.getD (child.n_cells / 2) default))
        else (child.cells.getD (child.n_cells / 2) default))).2).cells = insertAt parent.cells parent_ncell (storeForm
      (if parent.type = PGTYPE_TABLE_INTERNAL then
          BTreeCell.tableInternal (bt.n_pages + 1) (cellKey (child.cells.getD (child.n_cells / 2) default))
        else if parent.type = PGTYPE_INDEX_INTERNAL then
          BTreeCell.indexInternal (bt.n_pages + 1) (cellKey (child.cells.getD (child.n_cells / 2) default)) (cellKeyPk (child.cells.getD (child.n_cells / 2) default))
        else (child.cells.getD (child.n_cells / 2) default))) := insertCell_cells _ _ _
  exact ⟨_, _, _, _, hrun, hp1, hp2, hp3, hsibnp, hsibcells, hchildcells, hparcells⟩

/-- C4: when `chidb_Btree_split` succeeds on a child with `n` cells, the new
left sibling and the trimmed child each hold at most `⌈n/2⌉ + 1` cells, every
key in the sibling is ≤ the promoted (median) key, every key remaining in the
child is ≥ the promoted key, and the cell inserted into the parent at
`parent_ncell` carries the promoted key and the new sibling's page number as
its child pointer. -/
theorem chidb_Btree_split_balanced (bt : BTree)
    (npage_parent npage_child parent_ncell : Nat)
    (parent child : BTreeNode)
    (hgp : chidb_Btree_getNodeByPage bt npage_parent = some parent)
    (hgc : chidb_Btree_getNodeByPage bt npage_child = some child)
    (hpp : parent.npage = npage_parent)
    (hne : npage_parent ≠ npage_child)
    (hcnc : child.n_cells = child.cells.length)
    (hn1 : 1 ≤ child.n_cells)
    (hnb : child.n_cells < 30000)
    (hpn : parent_ncell ≤ parent.cells.length)
    (hchain : List.Chain' (· < ·) (cellKeys child.cells))
    (hptype : parent.type = PGTYPE_TABLE_INTERNAL ∨ parent.type = PGTYPE_INDEX_INTERNAL) :
    ∃ (bt' : BTree) (sib chd par : BTreeNode),
      chidb_Btree_split bt npage_parent npage_child parent_ncell =
        (.ok, bt', bt.n_pages + 1) ∧
      bt'.pages (bt.n_pages + 1) = some sib ∧
      bt'.pages npage_child = some chd ∧
      bt'.pages npage_parent = some par ∧
      sib.npage = bt.n_pages + 1 ∧
      sib.cells.length ≤ (child.n_cells + 1) / 2 + 1 ∧
      chd.cells.length ≤ (child.n_cells + 1) / 2 + 1 ∧
      (∀ c ∈ sib.cells,
        cellKey c ≤ cellKey (child.cells.getD (child.n_cells / 2) default)) ∧
      (∀ c ∈ chd.cells,
        cellKey (child.cells.getD (child.n_cells / 2) default) ≤ cellKey c) ∧
      cellKey (par.cells.getD parent_ncell default) =
        cellKey (child.cells.getD (child.n_cells / 2) default) ∧
      cellChildPage (par.cells.getD parent_ncell default) = sib.npage := by
  have hjlt : child.n_cells / 2 < child.cells.length := by omega
  rcases Decidable.em (child.type = PGTYPE_TABLE_LEAF) with hA | hA
  · obtain ⟨bt', sib, chd, par, hrun, hp1, hp2, hp3, hnp, hsc, hcc, hpc⟩ :=
      split_run_leaf bt npage_parent npage_child parent_ncell parent child
        hgp hgc hpp hne hcnc hn1 hnb hA
    refine ⟨bt', sib, chd, par, hrun, hp1, hp2, hp3, hnp, ?_, ?_, ?_, ?_, ?_, ?_⟩
    · rw [hsc, List.length_append, List.length_map, List.length_take]
      simp only [List.length_cons, List.length_nil]
      omega
    · rw [hcc, List.length_map, List.length_map, List.length_drop]; omega
    · rw [hsc]
      intro c hc
      rcases List.mem_append.mp hc with h | h
      · obtain ⟨c0, hc0, rfl⟩ := List.mem_map.mp h
        rw [cellKey_storeForm]
        exact Nat.le_of_lt (take_keys_lt hchain hjlt c0 hc0)
      · have hcs : c = storeForm (child.cells.getD (child.n_cells / 2) default) := by
          simpa using h
        subst hcs
        rw [cellKey_storeForm]
    · rw [hcc]
      intro c hc
      obtain ⟨c1, hc1, rfl⟩ := List.mem_map.mp hc
      obtain ⟨c0, hc0, rfl⟩ := List.mem_map.mp hc1
      rw [cellKey_storeForm, cellKey_storeForm]
      have hdd : child.cells.drop (child.n_cells / 2 + 1) =
          (child.cells.drop (child.n_cells / 2)).drop 1 := by
        rw [List.drop_drop, Nat.add_comm]
      rw [hdd] at hc0
      exact drop_keys_ge hchain hjlt c0 (List.mem_of_mem_drop hc0)
    · rw [hpc, insertAt_getD _ _ _ hpn]
      rcases hptype with hp | hp
      · rw [if_pos hp]; rfl
      · rw [if_neg (by rw [hp]; decide), if_pos hp]; rfl
    · rw [hpc, insertAt_getD _ _ _ hpn, hnp]
      rcases hptype with hp | hp
      · rw [if_pos hp]; rfl
      · rw [if_neg (by rw [hp]; decide), if_pos hp]; rfl
  · obtain ⟨bt', sib, chd, par, hrun, hp1, hp2, hp3, hnp, hsc, hcc, hpc⟩ :=
      split_run_nonleaf bt npage_parent npage_child parent_ncell parent child
        hgp hgc hpp hne hcnc hn1 hnb hA
    refine ⟨bt', sib, chd, par, hrun, hp1, hp2, hp3, hnp, ?_, ?_, ?_, ?_, ?_, ?_⟩
    · rw [hsc, List.length_map, List.length_take]; omega
    · rw [hcc, List.length_map, List.length_map, List.length_drop]; omega
    · rw [hsc]
      intro c hc
      obtain ⟨c0, hc0, rfl⟩ := List.mem_map.mp hc
      rw [cellKey_storeForm]
      exact Nat.le_of_lt (take_keys_lt hchain hjlt c0 hc0)
    · rw [hcc]
      intro c hc
      obtain ⟨c1, hc1, rfl⟩ := List.mem_map.mp hc
      obtain ⟨c0, hc0, rfl⟩ := List.mem_map.mp hc1
      rw [cellKey_storeForm, cellKey_storeForm]
      exact drop_keys_ge hchain hjlt c0 hc0
    · rw [hpc, insertAt_getD _ _ _ hpn]
      rcases hptype with hp | hp
      · rw [if_pos hp]; rfl
      · rw [if_neg (by rw [hp]; decide), if_pos hp]; rfl
    · rw [hpc, insertAt_getD _ _ _ hpn, hnp]
      rcases hptype with hp | hp
      · rw [if_pos hp]; rfl
      · rw [if_neg (by rw [hp]; decide), if_pos hp]; rfl

/-- Witness for `chidb_Btree_split_balanced`: a concrete two-page tree whose
3-cell table-leaf child at page 2 is split under the internal parent at page 1. -/
theorem chidb_Btree_split_balanced_witness :
    ∃ (bt' : BTree) (sib chd par : BTreeNode),
      chidb_Btree_split C4bt 1 2 1 = (.ok, bt', C4bt.n_pages + 1) ∧
      bt'.pages (C4bt.n_pages + 1) = some sib ∧
      bt'.pages 2 = some chd ∧
      bt'.pages 1 = some par ∧
      sib.npage = C4bt.n_pages + 1 ∧
      sib.cells.length ≤ (C4child.n_cells + 1) / 2 + 1 ∧
      chd.cells.length ≤ (C4child.n_cells + 1) / 2 + 1 ∧
      (∀ c ∈ sib.cells,
        cellKey c ≤ cellKey (C4child.cells.getD (C4child.n_cells / 2) default)) ∧
      (∀ c ∈ chd.cells,
        cellKey (C4child.cells.getD (C4child.n_cells / 2) default) ≤ cellKey c) ∧
      cellKey (par.cells.getD 1 default) =
        cellKey (C4child.cells.getD (C4child.n_cells / 2) default) ∧
      cellChildPage (par.cells.getD 1 default) = sib.npage :=
  chidb_Btree_split_balanced C4bt 1 2 1 C4parent C4child rfl rfl rfl (by decide)
    rfl (by decide) (by decide) (by decide)
    (by norm_num [C4child, cellKeys, List.chain'_cons, cellKey]) (Or.inl rfl)

theorem C1tt : TTree C1bt false 0 1 none none [.tableLeaf 7 2 [5, 6]] := by
  refine ⟨C1leaf, rfl, rfl, rfl, rfl, by decide, by simp, ?_, ?_, ?_, rfl⟩
  · intro c hc
    have : c = BTreeCell.tableLeaf 7 2 [5, 6] := by simpa [C1leaf] using hc
    subst this
    simp [isLeafCellWf]
  · simp [C1leaf, cellKeys]
  · intro k hk
    exact ⟨trivial, trivial⟩

/-- C1: on a table B-Tree satisfying the key-order invariant `TTree`,
`chidb_Btree_find` returns OK together with the stored payload and size
whenever a table-leaf entry with the key exists, returns NotFound whenever
no such entry exists, and leaves the database (the `BTree` it threads
through) unmodified in both cases. -/
theorem chidb_Btree_find_correct (bt : BTree) (h fuel nroot key : Nat)
    (lo hi : Option Nat) (es : List BTreeCell)
    (ht : TTree bt false h nroot lo hi es) (hfuel : h < fuel) :
    (∀ sz d, entryFor key es = some (sz, d) →
      chidb_Btree_find bt fuel nroot key = ((.ok, some (sz, d)), bt)) ∧
    (entryFor key es = none →
      chidb_Btree_find bt fuel nroot key = ((.enotfound, none), bt)) := by
  have h1 := @chidb_Btree_find_go bt key h fuel nroot lo hi es ht hfuel
  constructor
  · intro sz d he
    rw [h1]
    simp only [resultFor, he]
  · intro he
    rw [h1]
    simp only [resultFor, he]

/-- Witness for `chidb_Btree_find_correct`: a one-leaf tree where key 7 is
stored with payload `[5, 6]` and key 9 is absent. -/
theorem chidb_Btree_find_correct_witness :
    chidb_Btree_find C1bt 1 1 7 = ((.ok, some (2, [5, 6])), C1bt) ∧
    chidb_Btree_find C1bt 1 1 9 = ((.enotfound, none), C1bt) :=
  ⟨(chidb_Btree_find_correct C1bt 0 1 1 7 none none [.tableLeaf 7 2 [5, 6]]
      C1tt (by decide)).1 2 [5, 6] rfl,
   (chidb_Btree_find_correct C1bt 0 1 1 9 none none [.tableLeaf 7 2 [5, 6]]
      C1tt (by decide)).2 rfl⟩

theorem nf_leaf_scan_dup : ∀ (cs : List BTreeCell) (key i : Nat),
    List.Chain' (· < ·) (cellKeys cs) → key ∈ cellKeys cs →
    nf_leaf_scan key cs i = .error .eduplicate := by
  intro cs
  induction cs with
  | nil => intro key i _ hm; simp [cellKeys] at hm
  | cons c rest ih =>
    intro key i hchain hm
    rw [nf_leaf_scan]
    rcases Decidable.em (cellKey c = key) with he | he
    · rw [if_neg (by omega), if_pos he]
    · have hm' : key ∈ cellKeys rest := by
        have hcc : cellKeys (c :: rest) = cellKey c :: cellKeys rest := by
          simp only [cellKeys, List.map_cons]
        rw [hcc] at hm
        rcases List.mem_cons.mp hm with h | h
        · exact absurd h.symm he
        · exact h
      have hlt : cellKey c < key := keys_head_lt hchain key hm'
      rw [if_neg (by omega), if_neg he]
      exact ih key (i + 1) (chain'_keys_tail hchain) hm'

/-- C2 (amended): with a non-full table-leaf root already holding the key,
a duplicate insert returns `CHIDB_EDUPLICATE` and leaves the tree
untouched. -/
theorem chidb_Btree_insert_duplicate_unchanged (bt : BTree) (fuel nroot : Nat)
    (root : BTreeNode) (btc : BTreeCell)
    (hget : chidb_Btree_getNodeByPage bt nroot = some root)
    (htype : root.type = PGTYPE_TABLE_LEAF)
    (hnf : would_overflow root btc = false)
    (hcnc : root.n_cells = root.cells.length)
    (hchain : List.Chain' (· < ·) (cellKeys root.cells))
    (hmem : cellKey btc ∈ cellKeys root.cells)
    (hfuel : 1 ≤ fuel) :
    chidb_Btree_insert bt fuel nroot btc = (.eduplicate, bt) := by
  obtain ⟨f, rfl⟩ : ∃ f, fuel = f + 1 := ⟨fuel - 1, by omega⟩
  have hcond : (root.type = PGTYPE_TABLE_LEAF ∨ root.type = PGTYPE_INDEX_LEAF) = True := by
    simp [htype]
  simp only [chidb_Btree_insert, hget, hnf, Bool.false_eq_true, if_false,
    chidb_Btree_insertNonFull, hcond, if_true]
  rw [cellsUpTo_eq hcnc, nf_leaf_scan_dup root.cells (cellKey btc) 0 hchain hmem]

/-- Witness for `chidb_Btree_insert_duplicate_unchanged`: inserting key 7
again into a one-leaf tree already holding it. -/
theorem chidb_Btree_insert_duplicate_unchanged_witness :
    chidb_Btree_insert C2wbt 3 1 (.tableLeaf 7 9 [1]) = (.eduplicate, C2wbt) :=
  chidb_Btree_insert_duplicate_unchanged C2wbt 3 1 C2wroot (.tableLeaf 7 9 [1])
    rfl rfl rfl rfl (by norm_num [C2wroot, cellKeys, List.chain'_cons, cellKey])
    (by decide) (by decide)

/-- Counterexample to C2 as stated: after keys 2 and 3 are inserted into an
initially empty root leaf, a duplicate insert of key 2 that no longer fits
the root returns `CHIDB_EDUPLICATE` — but only after the full-root
restructuring has already rewritten page 1, so the file is not
byte-for-byte equal to its prior state. -/
theorem chidb_Btree_insert_duplicate_cex :
    (chidb_Btree_insert C2bt0 5 1 (.tableLeaf 2 1 [7])).1 = .ok ∧
    (chidb_Btree_insert C2bt1 5 1 (.tableLeaf 3 1 [7])).1 = .ok ∧
    (chidb_Btree_insert C2bt2 9 1 (.tableLeaf 2 1 [7])).1 = .eduplicate ∧
    (chidb_Btree_insert C2bt2 9 1 (.tableLeaf 2 1 [7])).2.pages 1 ≠ C2bt2.pages 1 := by
  refine ⟨rfl, rfl, rfl, ?_⟩
  decide

theorem C3tt : TTree C3wbt true 0 1 none none [.tableLeaf 4 1 [0], .tableLeaf 9 1 [0]] := by
  refine ⟨C3wleaf, rfl, rfl, rfl, rfl, by decide, fun _ => by simp [C3wleaf], ?_, ?_, ?_, rfl⟩
  · intro c hc
    have hc' : c = BTreeCell.tableLeaf 4 1 [0] ∨ c = BTreeCell.tableLeaf 9 1 [0] := by
      simpa [C3wleaf] using hc
    rcases hc' with rfl | rfl <;> simp [isLeafCellWf]
  · norm_num [C3wleaf, cellKeys, List.chain'_cons, cellKey]
  · intro k hk
    exact ⟨trivial, trivial⟩

/-- C3 (amended): on a table B-Tree all of whose leaves are nonempty and
which holds the entry list `es`, `chidb_dbm_cursor_rewind` succeeds and
stores the first entry, iterating `chidb_dbm_cursor_table_move` forward
yields exactly the remaining entries followed by `CHIDB_CANTMOVE`, and the
keys of `es` are pairwise strictly increasing. -/
theorem cursor_forward_traversal (bt : BTree) (H nroot fuel : Nat)
    (es : List BTreeCell) (c : Cursor)
    (ht : TTree bt true H nroot none none es)
    (hne : es ≠ [])
    (hroot : c.root_page = nroot)
    (hfuel : 2 * H + 3 ≤ fuel) :
    ∃ c', chidb_dbm_cursor_rewind bt fuel c = (.ok, c') ∧
      c'.cell = es.headI ∧
      collectMoves bt fuel es.length c' = (es.tail, .ecantmove) ∧
      List.Pairwise (· < ·) (cellKeys es) := by
  obtain ⟨c', h1, h2, h3⟩ := @rewind_spec bt H nroot fuel es c ht (by omega) hroot
  have hlen : es.tail.length + 1 = es.length := by
    cases es with
    | nil => exact absurd rfl hne
    | cons a l => simp
  have h4 := collect_spec es.tail c' fuel h2 hfuel
  rw [hlen] at h4
  exact ⟨c', h1, h3, h4, TTree_sorted ht⟩

/-- Witness for `cursor_forward_traversal`: a one-leaf tree with entries
for keys 4 and 9, traversed with fuel 3. -/
theorem cursor_forward_traversal_witness :
    ∃ c', chidb_dbm_cursor_rewind C3wbt 3 C3wcur = (.ok, c') ∧
      c'.cell = ([BTreeCell.tableLeaf 4 1 [0], BTreeCell.tableLeaf 9 1 [0]]).headI ∧
      collectMoves C3wbt 3 ([BTreeCell.tableLeaf 4 1 [0], BTreeCell.tableLeaf 9 1 [0]]).length c' =
        (([BTreeCell.tableLeaf 4 1 [0], BTreeCell.tableLeaf 9 1 [0]]).tail, .ecantmove) ∧
      List.Pairwise (· < ·)
        (cellKeys [BTreeCell.tableLeaf 4 1 [0], BTreeCell.tableLeaf 9 1 [0]]) :=
  cursor_forward_traversal C3wbt 0 1 3 [.tableLeaf 4 1 [0], .tableLeaf 9 1 [0]] C3wcur
    C3tt (by decide) rfl (by decide)

/-- Counterexample to C3 as stated: in a tree with a single leaf entry
(key 5) whose root also points at an empty rightmost leaf, the move after
the last entry does not return `CHIDB_CANTMOVE` — the cursor descends into
the empty leaf, the failed `chidb_Btree_getCell` result is discarded, and
the move reports `CHIDB_OK` again. -/
theorem cursor_forward_traversal_cex :
    (chidb_dbm_cursor_rewind C3xbt 9 C3xcur).1 = .ok ∧
    (chidb_dbm_cursor_rewind C3xbt 9 C3xcur).2.cell = .tableLeaf 5 1 [0] ∧
    (chidb_dbm_cursor_table_move C3xbt 9
      (chidb_dbm_cursor_rewind C3xbt 9 C3xcur).2 true).1 = .ok :=
  ⟨rfl, rfl, rfl⟩

/-- C7 (amended): `chidb_dbm_cursor_rewind` returns `CHIDB_OK` whenever the
root page loads, for every tree shape — the status of the descent to the
leftmost leaf is discarded, so an empty-leaf root also yields `CHIDB_OK`. -/
theorem chidb_dbm_cursor_rewind_ok (bt : BTree) (fuel : Nat) (c : Cursor)
    (nd : BTreeNode)
    (hget : chidb_Btree_getNodeByPage bt c.root_page = some nd) :
    (chidb_dbm_cursor_rewind bt fuel c).1 = .ok := by
  simp [chidb_dbm_cursor_rewind, chidb_dbm_trail_node_new, hget]

/-- Witness for `chidb_dbm_cursor_rewind_ok` at an empty-leaf root. -/
theorem chidb_dbm_cursor_rewind_ok_witness :
    (chidb_dbm_cursor_rewind C7bt 1 C7cur).1 = .ok :=
  chidb_dbm_cursor_rewind_ok C7bt 1 C7cur C7leaf rfl

/-- Counterexample to C7 as stated: the root of `C7bt` is a leaf with zero
cells, yet `chidb_dbm_cursor_rewind` does not fail with `CHIDB_CANTMOVE` —
it returns `CHIDB_OK`. -/
theorem chidb_dbm_cursor_rewind_cex :
    C7leaf.n_cells = 0 ∧ C7leaf.type = PGTYPE_TABLE_LEAF ∧
    (chidb_dbm_cursor_rewind C7bt 2 C7cur).1 = .ok := ⟨rfl, rfl, rfl⟩

/-- C8 (code bug): the range guard of `chidb_Btree_getCell` is
`btn->n_cells < ncell`, so the out-of-range index `ncell = n_cells` is NOT
rejected with `CHIDB_ECELLNO`: the call succeeds and decodes the bytes just
past the cell-offset array (junk, modelled by `default`). -/
theorem chidb_Btree_getCell_off_by_one (btn : BTreeNode) :
    chidb_Btree_getCell btn btn.n_cells = .ok (btn.cells.getD btn.n_cells default) := by
  rw [chidb_Btree_getCell, if_neg (by omega)]

/-- C9 (code bug): initializing a fresh internal (0x05) page leaves the
right-page field untouched: the guard compares the node type against the
cell-offset header offsets 12/8 instead of the page-type constants, so the
`put4byte(..., 0)` is dead code and the four bytes at `PGHEADER_RIGHTPG_OFFSET`
keep their prior (garbage) value 0xABABABAB, while cell count, cells offset
and free offset are set as documented. -/
theorem chidb_Btree_initEmptyNode_rightpage_bug :
    get2byte (chidb_Btree_initEmptyNode_bytes C9page 2 1024 PGTYPE_TABLE_INTERNAL)
      PGHEADER_NCELLS_OFFSET = 0 ∧
    get2byte (chidb_Btree_initEmptyNode_bytes C9page 2 1024 PGTYPE_TABLE_INTERNAL)
      PGHEADER_CELL_OFFSET = 1024 ∧
    get2byte (chidb_Btree_initEmptyNode_bytes C9page 2 1024 PGTYPE_TABLE_INTERNAL)
      PGHEADER_FREE_OFFSET = INTPG_CELLSOFFSET_OFFSET ∧
    get4byte (chidb_Btree_initEmptyNode_bytes C9page 2 1024 PGTYPE_TABLE_INTERNAL)
      PGHEADER_RIGHTPG_OFFSET = 0xABABABAB := by
  refine ⟨rfl, rfl, rfl, rfl⟩

/-- C10: `chidb_Btree_insertCell` validates nothing and never returns
`CHIDB_ECELLNO`: for every node, index and cell it returns `CHIDB_OK`,
splices the stored cell into the offset array at `ncell`, moves
`cells_offset` down by the cell's on-disk length, increments `n_cells` and
advances `free_offset` by 2, all in `uint16_t` arithmetic. -/
theorem chidb_Btree_insertCell_total (btn : BTreeNode) (ncell : Nat) (cell : BTreeCell) :
    (chidb_Btree_insertCell btn ncell cell).1 = .ok ∧
    (chidb_Btree_insertCell btn ncell cell).2.n_cells = add16 btn.n_cells 1 ∧
    (chidb_Btree_insertCell btn ncell cell).2.cells_offset =
      sub16 btn.cells_offset (cellLength cell) ∧
    (chidb_Btree_insertCell btn ncell cell).2.free_offset = add16 btn.free_offset 2 ∧
    (chidb_Btree_insertCell btn ncell cell).2.cells =
      insertAt btn.cells ncell (storeForm cell) :=
  ⟨rfl, rfl, rfl, rfl, rfl⟩

theorem headerChecksPass_put15 (h : Bytes) (v : Nat) :
    headerChecksPass (put1 h 15 v) = headerChecksPass h := by
  simp [headerChecksPass, matchBytes, put1, magicBytes, HEADER_FILECHANGE,
    HEADER_SCHEMA, HEADER_PAGECACHESIZE, HEADER_COOKIE]

/-- C6 (amended): `chidb_Btree_open` on an existing non-empty file returns
OK with the page size from offset 16 exactly when the validated slots
match, and `CHIDB_ECORRUPTHEADER` otherwise — but the magic-string
comparison covers only bytes 0..14 (`memcmp(..., 0x0F)`): the value of
header byte 15 never affects the outcome. -/
theorem chidb_Btree_open_checks (h : Bytes) (v : Nat) :
    (headerChecksPass h = true →
      chidb_Btree_open_existing h = (.ok, get2byte h HEADER_PAGESIZE) ∧
      chidb_Btree_open_existing (put1 h 15 v) =
        (.ok, get2byte (put1 h 15 v) HEADER_PAGESIZE)) ∧
    (headerChecksPass h = false →
      chidb_Btree_open_existing h = (.ecorruptheader, 0)) := by
  constructor
  · intro hp
    have hp' : headerChecksPass (put1 h 15 v) = true := by
      rw [headerChecksPass_put15, hp]
    constructor
    · rw [chidb_Btree_open_existing, if_pos hp]
    · rw [chidb_Btree_open_existing, if_pos hp']
  · intro hp
    rw [chidb_Btree_open_existing, if_neg (by rw [hp]; exact Bool.false_ne_true)]

/-- Witness for `chidb_Btree_open_checks`: the header written by
`chidb_Btree_initEmptyNode` for page 1 passes (page size 1024), still
passes with byte 15 overwritten by 0xFF, and the all-zero header is
rejected. -/
theorem chidb_Btree_open_checks_witness :
    chidb_Btree_open_existing C6valid = (.ok, 1024) ∧
    chidb_Btree_open_existing (put1 C6valid 15 255) = (.ok, 1024) ∧
    chidb_Btree_open_existing (fun _ => 0) = (.ecorruptheader, 0) := by
  have h1 := (chidb_Btree_open_checks C6valid 255).1 (by decide)
  have h2 := (chidb_Btree_open_checks (fun _ => 0) 0).2 (by decide)
  refine ⟨h1.1.trans (by decide), h1.2.trans (by decide), h2⟩

/-- Counterexample to C6 as stated: this header differs from a valid one
exactly in byte 15 (0xFF instead of the terminating 0 of
`"SQLite format 3"`), yet `chidb_Btree_open` accepts it with OK instead of
returning `CHIDB_ECORRUPTHEADER`. -/
theorem chidb_Btree_open_cex :
    C6hdr 15 % 256 = 0xFF ∧
    chidb_Btree_open_existing C6hdr = (.ok, 1024) := by
  refine ⟨rfl, ?_⟩
  decide
